import Mathlib

/-!
# Verification of the VesselOptimisation core pipeline

A shallow embedding, in Lean 4, of the cost model, exact-solver model,
FCFS baseline, heuristic refiner, and discrete-event simulator of the
VesselOptimisation repository (`utils.py`, `milp_optimizer.py`,
`heuristics.py`, `simulation.py`), together with theorems settling the
frozen claims about the natural-language specification.

Modelling conventions:
* Python floats are modelled as exact rationals (`ℚ`); the claims under
  study are structural (conservation, membership, monotonicity, fallback
  selection), not about rounding of binary floating point.
* Python dicts keyed by id are modelled as association lists; dict lookup
  after `DataFrame.set_index(...).to_dict('index')` keeps the last row for
  a duplicated id, so `dictLookup` returns the last match.
* Python `random.*` draws are modelled as oracle parameters (functions
  supplying the drawn values), so theorems quantify over every possible
  draw.
* Code paths that raise (`KeyError` from direct dict indexing,
  `ZeroDivisionError`) are modelled with `Except String`.
-/

/- Batteries marks the `Rat` arithmetic operations `@[irreducible]`, which
blocks definitional evaluation of concrete rational computations.  The
embedded program is arithmetic over ℚ throughout, so restore default
reducibility to let `decide` evaluate the embedded functions on concrete
inputs (soundness is unaffected: every proof still passes the kernel). -/
set_option allowUnsafeReducibility true in
attribute [semireducible] Rat.add Rat.mul Rat.div Rat.sub Rat.neg Rat.inv Rat.blt

/-- Last-match lookup: models `dict[...]`-style lookup on a dict built by
inserting the pairs in list order (later duplicates overwrite). -/
def dictLookup {κ β : Type} [DecidableEq κ] : List (κ × β) → κ → Option β
  | [], _ => none
  | p :: rest, k =>
    match dictLookup rest k with
    | some v => some v
    | none => if p.1 = k then some p.2 else none

/-- Dict update: replaces the value at an existing key in place (keeping its
position, as Python dicts do) or appends a fresh key at the end. -/
def aset {κ β : Type} [DecidableEq κ] (l : List (κ × β)) (k : κ) (v : β) :
    List (κ × β) :=
  if l.any (fun p => p.1 = k) then
    l.map (fun p => if p.1 = k then (k, v) else p)
  else l ++ [(k, v)]

/-- Update the value at a key if present (no-op otherwise). -/
def aupd {κ β : Type} [DecidableEq κ] (l : List (κ × β)) (k : κ) (f : β → β) :
    List (κ × β) :=
  l.map (fun p => if p.1 = k then (p.1, f p.2) else p)

/-- Python `int(...)` on a number: truncation toward zero. -/
def pyInt (q : ℚ) : ℤ := if 0 ≤ q then ⌊q⌋ else ⌈q⌉

/-- Python `round(. )` to an integer: round half to even. -/
def pyRoundInt (q : ℚ) : ℤ :=
  let f := ⌊q⌋
  let r := q - f
  if r < 1/2 then f
  else if 1/2 < r then f + 1
  else if f % 2 = 0 then f else f + 1

/-- Python `round(q, 2)` (idealised over ℚ). -/
def pyRound2 (q : ℚ) : ℚ := (pyRoundInt (q * 100) : ℚ) / 100

/-! ## Domain tables (input contract of §6 of the spec)

`secondary_port_id` is stored already tokenised: `heuristics.py` splits the
raw cell on `[|;,]+` and upper-cases the tokens before any use, so the model
receives the token list directly. Columns never read by the embedded core
(storage cost, free storage days, safety stock, freight fields) are
omitted. -/

structure Vessel where
  vessel_id : String
  cargo_mt : ℚ
  eta_day : ℚ
  port_id : String
  secondary_port_id : List String
  cargo_grade : String
  demurrage_rate : ℚ
deriving Repr, DecidableEq

structure Port where
  port_id : String
  handling_cost_per_mt : ℚ
  daily_capacity_mt : ℚ
  rakes_available_per_day : ℕ
deriving Repr, DecidableEq

structure Plant where
  plant_id : String
  daily_demand_mt : ℚ
  quality_requirements : String
deriving Repr, DecidableEq

structure RailCost where
  port_id : String
  plant_id : String
  cost_per_mt : ℚ
  transit_days : ℚ
deriving Repr, DecidableEq

structure Tables where
  vessels : List Vessel
  ports : List Port
  plants : List Plant
  railCosts : List RailCost
deriving Repr, DecidableEq

/-- `self.port_lookup = ports_df.set_index('port_id').to_dict('index')`. -/
def portLookup (t : Tables) : List (String × Port) :=
  t.ports.map (fun p => (p.port_id, p))

/-- `self.plant_lookup = plants_df.set_index('plant_id').to_dict('index')`. -/
def plantLookup (t : Tables) : List (String × Plant) :=
  t.plants.map (fun p => (p.plant_id, p))

/-- `self.vessel_lookup = vessels_df.set_index('vessel_id').to_dict('index')`. -/
def vesselLookup (t : Tables) : List (String × Vessel) :=
  t.vessels.map (fun v => (v.vessel_id, v))

/-! ## Assignment records

One structure for the assignment dicts produced by every stage.  Fields that
some producers omit or set to `None` are `Option`s (`none` models both,
matching the `dict.get` accesses of the consumers; every in-repo producer
sets all of them). -/

structure Assignment where
  vessel_id : String
  port_id : String
  plant_id : String
  time_period : ℤ
  scheduled_day : Option ℚ
  cargo_mt : ℚ
  berth_time : Option ℚ
  actual_berth_time : Option ℚ
  planned_berth_time : Option ℚ
  predicted_delay_days : Option ℚ
  rakes_required : ℤ
deriving Repr, DecidableEq

/-- Sum of `cargo_mt` over the assignments of one vessel. -/
def cargoSum (l : List Assignment) (vid : String) : ℚ :=
  ((l.filter (fun a => a.vessel_id = vid)).map (fun a => a.cargo_mt)).sum

/-! ## Cost model (`utils.py`, class `CostCalculator`) -/

namespace CostCalculator

/-- `CostCalculator.calculate_demurrage_cost`.  `none` models a NaN berth
time (the `pd.isna` guard).  Note the code computes
`delay_hours = max(0, actual - planned)` and divides by 24. -/
def calculateDemurrageCost (vessel : Vessel) (actual planned : Option ℚ) : ℚ :=
  match actual, planned with
  | some a, some p =>
      let delay_hours := max 0 (a - p)
      let delay_days := delay_hours / 24
      delay_days * vessel.demurrage_rate
  | _, _ => 0

/-- `CostCalculator.calculate_port_handling_cost`. -/
def calculatePortHandlingCost (cargo_mt : ℚ) (port : Port) : ℚ :=
  cargo_mt * port.handling_cost_per_mt

/-- `CostCalculator.calculate_rail_transport_cost`. -/
def calculateRailTransportCost (cargo_mt railRate : ℚ) : ℚ :=
  cargo_mt * railRate

end CostCalculator

/-- Dataset-wide mean of `cost_per_mt` over the rail-costs table. -/
def railCostMean (t : Tables) : ℚ :=
  ((t.railCosts.map (fun r => r.cost_per_mt)).sum) / t.railCosts.length

/-- The rail-cost rows matching a (port, plant) pair, in table order. -/
def railRows (t : Tables) (pid plid : String) : List RailCost :=
  t.railCosts.filter (fun r => r.port_id = pid ∧ r.plant_id = plid)

/-- The cost-component dict returned by
`CostCalculator.calculate_total_logistics_cost`. -/
structure CostDict where
  port_handling : ℚ
  rail_transport : ℚ
  demurrage : ℚ
  total : ℚ
deriving Repr, DecidableEq

namespace CostCalculator

/-- Loop body of `calculate_total_logistics_cost`: accumulates the three
components over the assignment list.  An assignment whose `port_id` matches
no row of the ports table is skipped (`continue`); the rail rate falls back
to the dataset-wide mean `cost_per_mt` for an absent (port, plant) pair
(0.0 on an empty rail table); demurrage is added only when both berth-time
fields are present, and looking up an unknown `vessel_id` there raises
(`.iloc[0]` on an empty frame → `IndexError`, a `LookupError`). -/
def totalLogisticsGo (t : Tables) :
    List Assignment → ℚ → ℚ → ℚ → Except String (ℚ × ℚ × ℚ)
  | [], ph, rt, dm => .ok (ph, rt, dm)
  | a :: rest, ph, rt, dm =>
    match t.ports.find? (fun p => p.port_id = a.port_id) with
    | none => totalLogisticsGo t rest ph rt dm
    | some port_data =>
      let ph' := ph + calculatePortHandlingCost a.cargo_mt port_data
      let rate :=
        match railRows t a.port_id a.plant_id with
        | [] => if t.railCosts = [] then 0 else railCostMean t
        | r :: _ => r.cost_per_mt
      let rt' := rt + calculateRailTransportCost a.cargo_mt rate
      match a.actual_berth_time, a.planned_berth_time with
      | some ab, some pb =>
        match t.vessels.find? (fun v => v.vessel_id = a.vessel_id) with
        | none => .error "IndexError"
        | some vd =>
          totalLogisticsGo t rest ph' rt'
            (dm + calculateDemurrageCost vd (some ab) (some pb))
      | _, _ => totalLogisticsGo t rest ph' rt' dm

/-- `CostCalculator.calculate_total_logistics_cost`. -/
def calculateTotalLogisticsCost (t : Tables) (assignments : List Assignment) :
    Except String CostDict :=
  (totalLogisticsGo t assignments 0 0 0).map
    (fun c => ⟨c.1, c.2.1, c.2.2, c.1 + c.2.1 + c.2.2⟩)

end CostCalculator

/-- `plants_df[plants_df['quality_requirements'] == grade]`, the filter used
by the baseline generator and both heuristic stages to pick plants for a
cargo grade. -/
def compatiblePlants (t : Tables) (grade : String) : List Plant :=
  t.plants.filter (fun p => p.quality_requirements = grade)

namespace MILPOptimizer

/-- `MILPOptimizer._get_rail_cost`: first matching row's `cost_per_mt`,
falling back to the constant `100.0` when the pair is absent. -/
def getRailCost (t : Tables) (pid plid : String) : ℚ :=
  match railRows t pid plid with
  | [] => 100
  | r :: _ => r.cost_per_mt

/-- The discretized horizon `1, …, time_horizon` (days). -/
def timePeriods (horizon : ℕ) : List ℕ :=
  (List.range horizon).map (fun i => i + 1)

/-- The vessel row the model's `self.vessel_lookup[v.vessel_id]` access
yields: the last table row carrying that id (equal to `v` itself whenever
vessel ids are unique). -/
def vesselRowOf (t : Tables) (v : Vessel) : Vessel :=
  (dictLookup (vesselLookup t) v.vessel_id).getD v

/-- Likewise for `self.port_lookup[p.port_id]`. -/
def portRowOf (t : Tables) (p : Port) : Port :=
  (dictLookup (portLookup t) p.port_id).getD p

/-- A candidate point for the decision variables of `build_milp_model`:
cargo flow `x[v,p,pl,t]`, berth indicator `y[v,p,t]`, rake count
`z[p,pl,t]`, auxiliary demurrage `d[v]`. -/
structure MilpSol where
  x : String → String → String → ℕ → ℚ
  y : String → String → ℕ → ℚ
  z : String → String → ℕ → ℚ
  d : String → ℚ

/-- Σ over all ports, plants and periods of a vessel's cargo flow. -/
def vesselFlowSum (t : Tables) (horizon : ℕ)
    (x : String → String → String → ℕ → ℚ) (vid : String) : ℚ :=
  (t.ports.map (fun p =>
    (t.plants.map (fun pl =>
      ((timePeriods horizon).map (fun tp => x vid p.port_id pl.plant_id tp)).sum)).sum)).sum

/-- The feasible set of the integer program built by
`MILPOptimizer.build_milp_model` (objective aside): variable domains plus
constraints 1-8 and 10 of the source.  Note there is no constraint tying a
plant's `quality_requirements` to the vessel's `cargo_grade`. -/
def milpFeasible (t : Tables) (horizon : ℕ) (delays : String → ℚ)
    (s : MilpSol) : Prop :=
  -- variable domains: x ≥ 0, y binary, z a nonnegative integer, d ≥ 0
  (∀ v ∈ t.vessels, ∀ p ∈ t.ports, ∀ pl ∈ t.plants, ∀ tp ∈ timePeriods horizon,
    0 ≤ s.x v.vessel_id p.port_id pl.plant_id tp) ∧
  (∀ v ∈ t.vessels, ∀ p ∈ t.ports, ∀ tp ∈ timePeriods horizon,
    s.y v.vessel_id p.port_id tp = 0 ∨ s.y v.vessel_id p.port_id tp = 1) ∧
  (∀ p ∈ t.ports, ∀ pl ∈ t.plants, ∀ tp ∈ timePeriods horizon,
    0 ≤ s.z p.port_id pl.plant_id tp ∧ (s.z p.port_id pl.plant_id tp).den = 1) ∧
  (∀ v ∈ t.vessels, 0 ≤ s.d v.vessel_id) ∧
  -- (1) vessel cargo conservation
  (∀ v ∈ t.vessels,
    vesselFlowSum t horizon s.x v.vessel_id = (vesselRowOf t v).cargo_mt) ∧
  -- (2) berthing only at the designated port
  (∀ v ∈ t.vessels, ∀ p ∈ t.ports, p.port_id ≠ (vesselRowOf t v).port_id →
    ∀ tp ∈ timePeriods horizon, s.y v.vessel_id p.port_id tp = 0) ∧
  -- (3) no berthing before ETA
  (∀ v ∈ t.vessels, ∀ tp ∈ timePeriods horizon,
    (tp : ℚ) < (vesselRowOf t v).eta_day →
    s.y v.vessel_id (vesselRowOf t v).port_id tp = 0) ∧
  -- (4) a vessel berths at most once
  (∀ v ∈ t.vessels,
    ((timePeriods horizon).map
      (fun tp => s.y v.vessel_id (vesselRowOf t v).port_id tp)).sum ≤ 1) ∧
  -- (5) flow bounded by berthing at the designated port
  (∀ v ∈ t.vessels, ∀ pl ∈ t.plants, ∀ tp ∈ timePeriods horizon,
    s.x v.vessel_id (vesselRowOf t v).port_id pl.plant_id tp ≤
      (vesselRowOf t v).cargo_mt * s.y v.vessel_id (vesselRowOf t v).port_id tp) ∧
  -- (5b) zero flow from non-designated ports
  (∀ v ∈ t.vessels, ∀ p ∈ t.ports, p.port_id ≠ (vesselRowOf t v).port_id →
    ∀ pl ∈ t.plants, ∀ tp ∈ timePeriods horizon,
    s.x v.vessel_id p.port_id pl.plant_id tp = 0) ∧
  -- (6) daily port capacity
  (∀ p ∈ t.ports, ∀ tp ∈ timePeriods horizon,
    (t.vessels.map (fun v =>
      (t.plants.map (fun pl => s.x v.vessel_id p.port_id pl.plant_id tp)).sum)).sum
      ≤ (portRowOf t p).daily_capacity_mt) ∧
  -- (7) flow bounded by assigned rakes
  (∀ p ∈ t.ports, ∀ pl ∈ t.plants, ∀ tp ∈ timePeriods horizon,
    (t.vessels.map (fun v => s.x v.vessel_id p.port_id pl.plant_id tp)).sum ≤
      s.z p.port_id pl.plant_id tp * 5000) ∧
  -- (8) daily rake availability
  (∀ p ∈ t.ports, ∀ tp ∈ timePeriods horizon,
    (t.plants.map (fun pl => s.z p.port_id pl.plant_id tp)).sum ≤
      ((portRowOf t p).rakes_available_per_day : ℚ)) ∧
  -- (10) demurrage lower bound
  (∀ v ∈ t.vessels,
    ((timePeriods horizon).map (fun (tp : ℕ) =>
      let eff := max 0 ((tp : ℚ) + delays v.vessel_id - (vesselRowOf t v).eta_day)
      if 0 < eff then
        (vesselRowOf t v).demurrage_rate * eff *
          s.y v.vessel_id (vesselRowOf t v).port_id tp
      else 0)).sum ≤ s.d v.vessel_id)

/-- `MILPOptimizer._extract_assignments`: nested loops over vessel, port and
plant id columns and the horizon, keeping positions with cargo flow above
the 0.1 MT filter whose berth indicator is at least 0.5; `cargo_mt` is
rounded to two decimals, `rakes_required` is computed from the unrounded
flow.  (The vessel lookup inside is total because the loop ranges over the
vessel-id column itself.) -/
def extractAssignments (t : Tables) (horizon : ℕ) (delays : String → ℚ)
    (x : String → String → String → ℕ → ℚ) (y : String → String → ℕ → ℚ) :
    List Assignment :=
  (t.vessels.map (fun v => v.vessel_id)).flatMap (fun v =>
    (t.ports.map (fun p => p.port_id)).flatMap (fun p =>
      (t.plants.map (fun pl => pl.plant_id)).flatMap (fun pl =>
        (timePeriods horizon).filterMap (fun tp =>
          let cargo := x v p pl tp
          if cargo ≤ 1/10 then none
          else if y v p tp < 1/2 then none
          else
            match dictLookup (vesselLookup t) v with
            | none => none
            | some vd =>
              let pd := delays v
              let actual := (tp : ℚ) + pd
              some { vessel_id := v
                     port_id := p
                     plant_id := pl
                     time_period := (tp : ℤ)
                     scheduled_day := some ((tp : ℕ) : ℚ)
                     cargo_mt := pyRound2 cargo
                     berth_time := some actual
                     actual_berth_time := some actual
                     planned_berth_time := some vd.eta_day
                     predicted_delay_days := some pd
                     rakes_required := ⌈cargo / 5000⌉ }))))

/-- First row attaining the maximum `daily_demand_mt`
(`DataFrame.idxmax` keeps the first maximiser). -/
def idxmaxDemand : Plant → List Plant → Plant
  | best, [] => best
  | best, p :: rest =>
    if p.daily_demand_mt > best.daily_demand_mt then idxmaxDemand p rest
    else idxmaxDemand best rest

/-- Insert a vessel after every element whose `eta_day` is not larger. -/
def insertByEta (v : Vessel) : List Vessel → List Vessel
  | [] => [v]
  | w :: ws => if v.eta_day < w.eta_day then v :: w :: ws else w :: insertByEta v ws

/-- `vessels_df.sort_values('eta_day')` as a stable insertion sort (pandas'
default quicksort leaves the order of equal ETAs unspecified; ties do not
affect the verified properties). -/
def sortByEta (l : List Vessel) : List Vessel :=
  l.foldl (fun acc v => insertByEta v acc) []

/-- Main loop of `MILPOptimizer.create_baseline_solution` over the
ETA-sorted vessels; `portUtil` is the `port_utilization` dict of
next-available times, `delays` models `self.predicted_delay_days`
(`.get(vid, 0.0)`).  A vessel with no grade-compatible plant is skipped
(it receives no assignment). -/
def fcfsGo (t : Tables) (delays : String → ℚ) :
    List Vessel → List (String × ℚ) → List Assignment
  | [], _ => []
  | v :: rest, portUtil =>
    match compatiblePlants t v.cargo_grade with
    | [] => fcfsGo t delays rest portUtil
    | p :: ps =>
      let target := idxmaxDemand p ps
      let eta := v.eta_day
      let available := (dictLookup portUtil v.port_id).getD eta
      let arrival := eta + delays v.vessel_id
      let actual := max arrival available
      let portUtil' := aset portUtil v.port_id (actual + 3/2)
      let scheduled : ℤ := ⌈actual⌉
      { vessel_id := v.vessel_id
        port_id := v.port_id
        plant_id := target.plant_id
        time_period := scheduled
        scheduled_day := some (scheduled : ℚ)
        cargo_mt := v.cargo_mt
        berth_time := some actual
        actual_berth_time := some actual
        planned_berth_time := some eta
        predicted_delay_days := some (delays v.vessel_id)
        rakes_required := ⌈v.cargo_mt / 5000⌉ } :: fcfsGo t delays rest portUtil'

/-- The assignment list of the FCFS baseline Solution. -/
def createBaselineAssignments (t : Tables) (delays : String → ℚ) :
    List Assignment :=
  fcfsGo t delays (sortByEta t.vessels) []

/-- `MILPOptimizer._calculate_assignment_cost`: handling + rail (100/MT
fallback) + demurrage `max(0, berth − planned) * rate` per assignment;
direct dict indexing raises `KeyError` on an unknown port or vessel id. -/
def calculateAssignmentCost (t : Tables) :
    List Assignment → ℚ → Except String ℚ
  | [], acc => .ok acc
  | a :: rest, acc =>
    let berth : Option ℚ :=
      match a.actual_berth_time with
      | some b => some b
      | none =>
        match a.berth_time with
        | some b => some b
        | none => some (a.time_period : ℚ)
    match dictLookup (portLookup t) a.port_id with
    | none => .error "KeyError"
    | some pd =>
      let port_cost := pd.handling_cost_per_mt * a.cargo_mt
      let rail := getRailCost t a.port_id a.plant_id * a.cargo_mt
      match dictLookup (vesselLookup t) a.vessel_id with
      | none => .error "KeyError"
      | some vd =>
        let vessel_eta := a.planned_berth_time.getD vd.eta_day
        let delay_days :=
          match berth with
          | some b => max 0 (b - vessel_eta)
          | none => (0 : ℚ)
        calculateAssignmentCost t rest
          (acc + (port_cost + rail + delay_days * vd.demurrage_rate))

end MILPOptimizer

namespace HeuristicOptimizer

/-- `HeuristicOptimizer._get_rail_cost`: first matching row's `cost_per_mt`,
falling back to the constant `100.0` when the pair is absent. -/
def getRailCost (t : Tables) (pid plid : String) : ℚ :=
  match railRows t pid plid with
  | [] => 100
  | r :: _ => r.cost_per_mt

/-- `HeuristicOptimizer._parse_allowed_ports`: the primary port first, then
each secondary token that is nonempty, not yet listed, and a known port.
(The splitting/upper-casing of the raw cell is modelled by
`secondary_port_id` already being the token list.) -/
def parseAllowedPorts (t : Tables) (v : Vessel) : List String :=
  v.secondary_port_id.foldl
    (fun allowed tok =>
      if tok ≠ "" ∧ tok ∉ allowed ∧ (dictLookup (portLookup t) tok).isSome
      then allowed ++ [tok] else allowed)
    [v.port_id]

/-- `self.vessel_allowed_ports.get(vid)`: the dict is built over
`vessel_lookup.items()`, so its value at a known vessel id is
`parseAllowedPorts` of the (last) vessel row with that id. -/
def allowedPortsOf (t : Tables) (vid : String) : Option (List String) :=
  (dictLookup (vesselLookup t) vid).map (fun v => parseAllowedPorts t v)

/-- `self.primary_port_map.get(vid)`. -/
def primaryPortOf (t : Tables) (vid : String) : Option String :=
  (dictLookup (vesselLookup t) vid).map (fun v => v.port_id)

/-- A GA gene `(vessel_id, port_id, plant_id, berth_day)`; `berth_day` is
`Option` because hybrid methods may pass `None`. -/
structure Gene where
  vesselId : String
  portId : String
  plantId : String
  berthDay : Option ℚ
deriving Repr, DecidableEq

/-- Per-gene body of `_individual_to_assignments`, after the vessel row has
been looked up and the allowed-ports list found nonempty: a `port_id`
outside the allowed set is repaired to `allowed_ports[0]` (the primary
port); a `None` berth day defaults to the vessel's `eta_day`.
`hdelays` models the precomputed `self.predicted_delay_days` table
(`.get(vid, \x7b\x7d).get(port, 0.0)`). -/
def geneToAssignment (hdelays : String → String → ℚ) (g : Gene) (vd : Vessel)
    (allowed : List String) (p0 : String) : Assignment :=
  let port := if g.portId ∈ allowed then g.portId else p0
  let scheduled := g.berthDay.getD vd.eta_day
  let pd := hdelays g.vesselId port
  let actual := scheduled + pd
  { vessel_id := g.vesselId
    port_id := port
    plant_id := g.plantId
    time_period := ⌈scheduled⌉
    scheduled_day := some scheduled
    cargo_mt := vd.cargo_mt
    berth_time := some actual
    actual_berth_time := some actual
    planned_berth_time := some vd.eta_day
    predicted_delay_days := some pd
    rakes_required := ⌈vd.cargo_mt / 5000⌉ }

/-- `HeuristicOptimizer._individual_to_assignments`.  Direct dict indexing
`self.vessel_lookup[vessel_id]` raises `KeyError` for a vessel id absent
from the vessels table; a vessel with an empty allowed-ports list is
skipped (unreachable for known vessels, whose list starts with the
primary port). -/
def individualToAssignments (t : Tables) (hdelays : String → String → ℚ) :
    List Gene → Except String (List Assignment)
  | [] => .ok []
  | g :: gs =>
    match dictLookup (vesselLookup t) g.vesselId with
    | none => .error "KeyError"
    | some vd =>
      match (allowedPortsOf t g.vesselId).getD [vd.port_id] with
      | [] => individualToAssignments t hdelays gs
      | p0 :: rest =>
        (individualToAssignments t hdelays gs).map
          (fun tl => geneToAssignment hdelays g vd (p0 :: rest) p0 :: tl)

/-- The in-place repair `_calculate_total_cost` performs on an assignment
dict: when `port_id` is not a known port and the vessel's primary port is a
known port, `assignment['port_id']` is overwritten with that primary port;
otherwise the dict is left as is. -/
def costLoopUpdate (t : Tables) (a : Assignment) : Assignment :=
  match dictLookup (portLookup t) a.port_id with
  | some _ => a
  | none =>
    match primaryPortOf t a.vessel_id with
    | none => a
    | some fb =>
      match dictLookup (portLookup t) fb with
      | none => a
      | some _ => { a with port_id := fb }

/-- Main loop of `HeuristicOptimizer._calculate_total_cost`: port handling
cost (+ secondary-port penalty of 50/MT when the effective port differs
from the vessel's primary), rail cost with the 100/MT fallback, and the
inline demurrage `max(0, berth − planned_eta) * demurrage_rate` (days, no
division).  An assignment whose effective port is unknown is skipped; the
eager evaluation of `self.vessel_lookup[vessel_id]` in the
`planned_berth_time` default raises `KeyError` for an unknown vessel id. -/
def costLoopGo (t : Tables) : List Assignment → ℚ → Except String ℚ
  | [], acc => .ok acc
  | a :: rest, acc =>
    let a' := costLoopUpdate t a
    match dictLookup (portLookup t) a'.port_id with
    | none => costLoopGo t rest acc
    | some pi =>
      let port_cost0 := pi.handling_cost_per_mt * a.cargo_mt
      let primary := (primaryPortOf t a.vessel_id).getD a'.port_id
      let port_cost :=
        if a'.port_id ≠ primary then port_cost0 + a.cargo_mt * 50 else port_cost0
      let rail := getRailCost t a'.port_id a.plant_id * a.cargo_mt
      match dictLookup (vesselLookup t) a.vessel_id with
      | none => .error "KeyError"
      | some vd =>
        let vessel_eta := a.planned_berth_time.getD vd.eta_day
        let berth :=
          match a.actual_berth_time with
          | some b => some b
          | none => a.berth_time
        let delay_days :=
          match berth with
          | some b => max 0 (b - vessel_eta)
          | none => (0 : ℚ)
        let dem := delay_days * vd.demurrage_rate
        costLoopGo t rest (acc + (port_cost + rail + dem))

/-- Accumulate `(port_id, time_period) ↦ Σ f(assignment)` in dict insertion
order, as `_calculate_constraint_penalties` builds `port_usage` and
`rake_usage`. -/
def usageDict (l : List Assignment) (f : Assignment → ℚ) :
    List ((String × ℤ) × ℚ) :=
  l.foldl
    (fun m a =>
      let key := (a.port_id, a.time_period)
      aset m key ((dictLookup m key).getD 0 + f a)) []

/-- Fold the usage dict against a per-port limit, raising `KeyError` when a
key's port is absent from `port_lookup` (direct `self.port_lookup[port_id]`
indexing). -/
def penaltyFold (t : Tables) (limit : Port → ℚ) (rate : ℚ) :
    List ((String × ℤ) × ℚ) → ℚ → Except String ℚ
  | [], acc => .ok acc
  | (key, usage) :: rest, acc =>
    match dictLookup (portLookup t) key.1 with
    | none => .error "KeyError"
    | some pd =>
      let cap := limit pd
      penaltyFold t limit rate rest
        (if usage > cap then acc + (usage - cap) * rate else acc)

/-- `HeuristicOptimizer._calculate_constraint_penalties`: 50/MT for daily
port-capacity overruns, 10000 per rake-day shortage. -/
def calculateConstraintPenalties (t : Tables) (l : List Assignment) :
    Except String ℚ := do
  let portPen ← penaltyFold t (fun p => p.daily_capacity_mt) 50
    (usageDict l (fun a => a.cargo_mt)) 0
  let rakePen ← penaltyFold t (fun p => (p.rakes_available_per_day : ℚ)) 10000
    (usageDict l (fun a => (a.rakes_required : ℚ))) 0
  return portPen + rakePen

/-- `HeuristicOptimizer._calculate_total_cost`: the cost loop (which
repairs the assignment dicts in place) followed by the constraint
penalties computed over the repaired dicts. -/
def calculateTotalCost (t : Tables) (l : List Assignment) :
    Except String ℚ := do
  let c ← costLoopGo t l 0
  let p ← calculateConstraintPenalties t (l.map (costLoopUpdate t))
  return c + p

/-- Random draws consumed by `_create_individual`, one per vessel: the index
drawn by `random.choice(compatible_plants)`, whether `random.random() < 0.15`
(pick a random allowed port), the index drawn by
`random.choice(allowed_ports)`, and the `random.uniform(0, 7)` berth
offset. -/
structure CreateOracle where
  plantIdx : String → ℕ
  altPort : String → Bool
  portIdx : String → ℕ
  berthOffset : String → ℚ

/-- `HeuristicOptimizer._create_individual`: one gene per vessel row, with a
grade-compatible plant chosen by the oracle, the primary port (or, with the
oracle's alternate-branch, any allowed port), and berth day
`eta_day + offset`.  Vessels with an empty allowed-ports list or no
grade-compatible plant produce no gene. -/
def createIndividual (t : Tables) (o : CreateOracle) : List Gene :=
  t.vessels.filterMap (fun v =>
    match (allowedPortsOf t v.vessel_id).getD [v.port_id] with
    | [] => none
    | p0 :: restPorts =>
      match (compatiblePlants t v.cargo_grade).map (fun p => p.plant_id) with
      | [] => none
      | c0 :: cs =>
        let comp := c0 :: cs
        let plant := comp.getD (o.plantIdx v.vessel_id % comp.length) c0
        let allowed := p0 :: restPorts
        let port :=
          if allowed.length > 1 ∧ o.altPort v.vessel_id then
            allowed.getD (o.portIdx v.vessel_id % allowed.length) p0
          else p0
        some ⟨v.vessel_id, port, plant, some (v.eta_day + o.berthOffset v.vessel_id)⟩)

/-- The mutable state of the `run_simulated_annealing` loop. -/
structure SAState where
  current : List Assignment
  currentCost : ℚ
  best : List Assignment
  bestCost : ℚ
  temperature : ℚ
deriving Repr, DecidableEq

/-- One iteration of `run_simulated_annealing`.  The neighbor produced by
`_generate_neighbor` (a deep copy of the current assignments with one
random perturbation) is supplied by the oracle `neighborFn`; the outcome of
`random.random() < exp(-delta / temperature)` is supplied by the oracle
`acceptWorse` (over-approximating: the real draw always rejects when the
temperature is nonpositive).  Cost evaluation repairs the neighbor's dicts
in place, so the accepted list is the repaired one. -/
def saStep (t : Tables) (neighborFn : List Assignment → List Assignment)
    (acceptWorse : Bool) (cooling : ℚ) (st : SAState) : Except String SAState :=
  let n := neighborFn st.current
  match calculateTotalCost t n with
  | .error e => .error e
  | .ok ncost =>
    let nUpd := n.map (costLoopUpdate t)
    if ncost < st.currentCost then
      if ncost < st.bestCost then
        .ok ⟨nUpd, ncost, nUpd, ncost, st.temperature * cooling⟩
      else
        .ok ⟨nUpd, ncost, st.best, st.bestCost, st.temperature * cooling⟩
    else if acceptWorse then
      .ok ⟨nUpd, ncost, st.best, st.bestCost, st.temperature * cooling⟩
    else
      .ok { st with temperature := st.temperature * cooling }

/-- `k` iterations of the annealing loop (iteration indices `0, …, k-1`, in
order; the oracles are indexed by iteration). -/
def saRun (t : Tables) (neighborFns : ℕ → List Assignment → List Assignment)
    (accepts : ℕ → Bool) (cooling : ℚ) (st : SAState) : ℕ → Except String SAState
  | 0 => .ok st
  | k + 1 =>
    (saRun t neighborFns accepts cooling st k).bind
      (fun s => saStep t (neighborFns k) (accepts k) cooling s)

/-- The result dict of `run_simulated_annealing` (time/seed metadata
omitted). -/
structure SAResult where
  objective_value : ℚ
  assignments : List Assignment
  iterations : ℕ
  improvement : ℚ
deriving Repr, DecidableEq

/-- `HeuristicOptimizer.run_simulated_annealing`.
`initial_solution['assignments'].copy()` is a shallow list copy, so the
assignment dicts stay shared with the seed and the initial
`_calculate_total_cost` call repairs them in place.  The second component
of the returned pair is the seed's assignment list as observable through
those shared dicts after the call returns. -/
def runSimulatedAnnealing (t : Tables)
    (neighborFns : ℕ → List Assignment → List Assignment) (accepts : ℕ → Bool)
    (seed : List Assignment) (maxIterations : ℕ)
    (initialTemp cooling initObjective : ℚ) :
    Except String (SAResult × List Assignment) := do
  let c0 ← calculateTotalCost t seed
  let seedView := seed.map (costLoopUpdate t)
  let st0 : SAState := ⟨seedView, c0, seedView, c0, initialTemp⟩
  let stF ← saRun t neighborFns accepts cooling st0 maxIterations
  return (⟨stF.bestCost, stF.best, maxIterations, initObjective - stF.bestCost⟩,
    seedView)

end HeuristicOptimizer

namespace LogisticsSimulator

/-- `LogisticsSimulator._get_rail_cost`: first matching row's `cost_per_mt`;
when the pair is absent, the dataset-wide mean `cost_per_mt` (or `0.0` on an
empty rail-costs table). -/
def getRailCost (t : Tables) (pid plid : String) : ℚ :=
  match railRows t pid plid with
  | [] => if t.railCosts = [] then 0 else railCostMean t
  | r :: _ => r.cost_per_mt

/-- `LogisticsSimulator._get_transit_time` (in time steps). -/
def getTransitTime (t : Tables) (pid plid : String) (stepHours : ℕ) : ℤ :=
  match railRows t pid plid with
  | r :: _ => pyInt (r.transit_days * 24 / (stepHours : ℚ))
  | [] => pyInt ((2 : ℚ) * 24 / (stepHours : ℚ))

inductive VStatus
  | enRoute
  | waiting
  | berthed
  | departed
deriving Repr, DecidableEq

inductive RStatus
  | available
  | loading
  | inTransit
  | unloading
deriving Repr, DecidableEq

/-- One entry of `vessel_state['assignments']` (and `assignment_states`). -/
structure AssignState where
  vessel_id : String
  port_id : String
  plant_id : String
  total_cargo : ℚ
  remaining_cargo : ℚ
  planned_berth_time_step : Option ℤ
  rail_cost_per_mt : ℚ
  predicted_delay_days : ℚ
deriving Repr, DecidableEq

/-- A `vessel_states` entry.  (`cargo_discharge_rate` and the
`*_berth_time_hours` keys are write-only in the source and omitted.) -/
structure VesselState where
  status : VStatus
  eta_time_step : ℤ
  planned_eta_time_step : ℤ
  berth_time_step : Option ℤ
  departure_time_step : Option ℤ
  cargo_remaining : ℚ
  initial_cargo : ℚ
  port_id : String
  assignments : List AssignState
  planned_berth_time_step : Option ℤ
  handled_cargo : ℚ
  demurrage_cost : ℚ
  predicted_delay_days : ℚ
deriving Repr, DecidableEq

/-- A grade-tagged inventory batch at a port. -/
structure Batch where
  vessel_id : String
  cargo_mt : ℚ
  remaining_mt : ℚ
  grade : String
  age_days : ℕ
deriving Repr, DecidableEq

/-- A `port_states` entry.  (`congestion_log` is write-only for the KPIs
under study and omitted.) -/
structure PortState where
  vessels_queue : List String
  current_vessel : Option String
  throughput_remaining : ℚ
  daily_capacity : ℚ
  rakes_available_per_day : ℕ
  rakes_remaining : ℤ
  total_handled : ℚ
  total_dispatched : ℚ
  inventory : List Batch
  last_day_index : ℤ
  discharged_today : ℚ
deriving Repr, DecidableEq

/-- A `plant_states` entry (`deliveries` event list omitted). -/
structure PlantState where
  total_received : ℚ
  daily_received : ℚ
  demand_remaining : ℚ
deriving Repr, DecidableEq

/-- A `rake_states` entry (`assignment_id` is write-only and omitted). -/
structure RakeState where
  status : RStatus
  home_port : String
  current_location : Option String
  cargo_mt : ℚ
  destination_plant : Option String
  arrival_time_step : Option ℤ
deriving Repr, DecidableEq

/-- The whole mutable simulation state (the `simulation_log` event list is
append-only and not consulted by any KPI; it is omitted). -/
structure SimState where
  vessels : List (String × VesselState)
  ports : List (String × PortState)
  plants : List (String × PlantState)
  rakes : List (String × RakeState)
  cost_demurrage : ℚ
  cost_port_handling : ℚ
  cost_rail_transport : ℚ
  rake_trip_count : ℕ
deriving Repr, DecidableEq

/-- The per-vessel maximum `predicted_delay_days` over the assignment list
(`initialize_simulation`'s `predicted_delay_map`). -/
def initialDelayMap (assignments : List Assignment) : List (String × ℚ) :=
  assignments.foldl
    (fun m a =>
      if a.vessel_id = "" then m
      else
        let d := (a.predicted_delay_days.getD 0)
        let cur := (dictLookup m a.vessel_id).getD 0
        if d > cur then aset m a.vessel_id d else m)
    []

/-- Initial vessel states from the vessels table. -/
def initVesselStates (t : Tables) (stepHours : ℕ)
    (delayMap : List (String × ℚ)) : List (String × VesselState) :=
  t.vessels.foldl
    (fun m v =>
      let delay := (dictLookup delayMap v.vessel_id).getD 0
      let planned := pyInt (v.eta_day * 24 / (stepHours : ℚ))
      let eta := pyInt ((v.eta_day + delay) * 24 / (stepHours : ℚ))
      aset m v.vessel_id
        { status := .enRoute
          eta_time_step := eta
          planned_eta_time_step := planned
          berth_time_step := none
          departure_time_step := none
          cargo_remaining := v.cargo_mt
          initial_cargo := v.cargo_mt
          port_id := v.port_id
          assignments := []
          planned_berth_time_step := none
          handled_cargo := 0
          demurrage_cost := 0
          predicted_delay_days := delay })
    []

/-- Initial port states from the ports table. -/
def initPortStates (t : Tables) : List (String × PortState) :=
  t.ports.foldl
    (fun m p =>
      aset m p.port_id
        { vessels_queue := []
          current_vessel := none
          throughput_remaining := p.daily_capacity_mt
          daily_capacity := p.daily_capacity_mt
          rakes_available_per_day := p.rakes_available_per_day
          rakes_remaining := (p.rakes_available_per_day : ℤ)
          total_handled := 0
          total_dispatched := 0
          inventory := []
          last_day_index := 0
          discharged_today := 0 })
    []

/-- Initial plant states from the plants table. -/
def initPlantStates (t : Tables) (days : ℕ) : List (String × PlantState) :=
  t.plants.foldl
    (fun m p =>
      aset m p.plant_id
        { total_received := 0
          daily_received := 0
          demand_remaining := p.daily_demand_mt * (days : ℚ) })
    []

/-- `LogisticsSimulator._process_assignments`, one assignment: skipped when
the vessel id is empty or unknown or the cargo is nonpositive; otherwise an
`AssignState` is appended to the vessel and the vessel's predicted delay,
ETA step and earliest planned berth step are updated. -/
def processOneAssignment (t : Tables) (stepHours : ℕ)
    (vstates : List (String × VesselState)) (a : Assignment) :
    List (String × VesselState) :=
  if a.vessel_id = "" then vstates
  else
    match dictLookup vstates a.vessel_id with
    | none => vstates
    | some vs =>
      if a.cargo_mt ≤ 0 then vstates
      else
        let plannedOpt : Option ℚ :=
          match a.planned_berth_time with
          | some q => some q
          | none =>
            match a.berth_time with
            | some q => some q
            | none => some (a.time_period : ℚ)
        let planned_step : Option ℤ :=
          plannedOpt.map (fun q => pyInt (q * 24 / (stepHours : ℚ)))
        let rail := getRailCost t a.port_id a.plant_id
        let pdd := a.predicted_delay_days.getD vs.predicted_delay_days
        let ast : AssignState :=
          { vessel_id := a.vessel_id
            port_id := a.port_id
            plant_id := a.plant_id
            total_cargo := a.cargo_mt
            remaining_cargo := a.cargo_mt
            planned_berth_time_step := planned_step
            rail_cost_per_mt := rail
            predicted_delay_days := pdd }
        let newDelay := max vs.predicted_delay_days pdd
        let eta_day :=
          match dictLookup (vesselLookup t) a.vessel_id with
          | some vd => vd.eta_day
          | none => 0
        let newEta := pyInt ((eta_day + newDelay) * 24 / (stepHours : ℚ))
        let newPlanned :=
          match planned_step, vs.planned_berth_time_step with
          | none, old => old
          | some ps, none => some ps
          | some ps, some old => some (min old ps)
        aset vstates a.vessel_id
          { vs with
            assignments := vs.assignments ++ [ast]
            predicted_delay_days := newDelay
            eta_time_step := newEta
            planned_berth_time_step := newPlanned }

/-- `_initialize_rakes`: `2 × rakes_available_per_day` rakes per port, named
with a global counter. -/
def mkRakes (pid : String) : ℕ → ℕ → List (String × RakeState)
  | 0, _ => []
  | n + 1, idx =>
    ("RAKE_" ++ pid ++ "_" ++ toString idx,
      { status := .available
        home_port := pid
        current_location := some pid
        cargo_mt := 0
        destination_plant := none
        arrival_time_step := none }) :: mkRakes pid n (idx + 1)

def initRakesGo : List Port → ℕ → List (String × RakeState)
  | [], _ => []
  | p :: rest, idx =>
    mkRakes p.port_id (p.rakes_available_per_day * 2) idx ++
      initRakesGo rest (idx + p.rakes_available_per_day * 2)

/-- `initialize_simulation`: vessel/port/plant states, assignment
processing, rake fleet, zeroed cost components. -/
def initSim (t : Tables) (assignments : List Assignment) (days stepHours : ℕ) :
    SimState :=
  let dm := initialDelayMap assignments
  let vs0 := initVesselStates t stepHours dm
  { vessels := assignments.foldl (processOneAssignment t stepHours) vs0
    ports := initPortStates t
    plants := initPlantStates t days
    rakes := initRakesGo t.ports 0
    cost_demurrage := 0
    cost_port_handling := 0
    cost_rail_transport := 0
    rake_trip_count := 0 }

/-- `_reset_daily_limits`: restore each port's daily throughput and rake
budgets (congestion logging omitted). -/
def resetDailyLimits (s : SimState) (day : ℤ) : SimState :=
  { s with
    ports := s.ports.map (fun e =>
      (e.1,
        { e.2 with
          throughput_remaining := e.2.daily_capacity
          rakes_remaining := (e.2.rakes_available_per_day : ℤ)
          last_day_index := day })) }

/-- `_age_port_inventories`. -/
def agePortInventories (s : SimState) : SimState :=
  { s with
    ports := s.ports.map (fun e =>
      (e.1,
        { e.2 with
          inventory := e.2.inventory.map (fun b => { b with age_days := b.age_days + 1 }) })) }

/-- `_reset_plant_daily_receipts` (also the effective content of
`_log_daily_state`). -/
def resetPlantDailyReceipts (s : SimState) : SimState :=
  { s with
    plants := s.plants.map (fun e => (e.1, { e.2 with daily_received := 0 })) }

/-- Python truthiness of the grade filter: an empty-string grade filters
nothing. -/
def gradeMatches (grade : Option String) (b : Batch) : Bool :=
  match grade with
  | none => true
  | some g => if g = "" then true else b.grade = g

/-- `_get_port_inventory_remaining` over one port's batches. -/
def inventoryRemaining (ps : PortState) (grade : Option String) : ℚ :=
  ((ps.inventory.filter (fun b => gradeMatches grade b)).map
    (fun b => b.remaining_mt)).sum

/-- The batch walk of `_consume_port_inventory`: take from each
grade-matching batch with positive remainder until the requirement is met;
returns the updated batches and the amount consumed. -/
def consumeGo (grade : Option String) : List Batch → ℚ → (List Batch × ℚ)
  | [], _ => ([], 0)
  | b :: rest, need =>
    if ¬ gradeMatches grade b then
      let r := consumeGo grade rest need
      (b :: r.1, r.2)
    else if b.remaining_mt ≤ 0 then
      let r := consumeGo grade rest need
      (b :: r.1, r.2)
    else
      let take := min b.remaining_mt need
      let b' := { b with remaining_mt := b.remaining_mt - take }
      if need - take ≤ 0 then (b' :: rest, take)
      else
        let r := consumeGo grade rest (need - take)
        (b' :: r.1, take + r.2)

/-- `_consume_port_inventory`: consume and then drop emptied batches
(remainder ≤ 0.01). -/
def consumePortInventory (ports : List (String × PortState)) (pid : String)
    (required : ℚ) (grade : Option String) :
    List (String × PortState) × ℚ :=
  if required ≤ 0 then (ports, 0)
  else
    match dictLookup ports pid with
    | none => (ports, 0)
    | some ps =>
      let r := consumeGo grade ps.inventory required
      let inv := r.1.filter (fun b => b.remaining_mt > 1/100)
      (aupd ports pid (fun p => { p with inventory := inv }), r.2)

/-- `_process_vessel_arrivals`: en-route vessels whose (delay-adjusted) ETA
step has come join their port's queue; a vessel whose `port_id` is not a
port-state key makes the direct `self.port_states[port_id]` access raise
`KeyError`. -/
def arrivalsGo (tstep : ℤ) :
    List (String × VesselState) → List (String × PortState) →
    Except String (List (String × VesselState) × List (String × PortState))
  | [], ports => .ok ([], ports)
  | (vid, vs) :: rest, ports =>
    if vs.status = .enRoute ∧ vs.eta_time_step ≤ tstep then
      match dictLookup ports vs.port_id with
      | none => .error "KeyError"
      | some _ =>
        let ports1 := aupd ports vs.port_id
          (fun ps => { ps with vessels_queue := ps.vessels_queue ++ [vid] })
        (arrivalsGo tstep rest ports1).map
          (fun r => ((vid, { vs with status := .waiting }) :: r.1, r.2))
    else
      (arrivalsGo tstep rest ports).map (fun r => ((vid, vs) :: r.1, r.2))

def processVesselArrivals (tstep : ℤ) (s : SimState) : Except String SimState :=
  (arrivalsGo tstep s.vessels s.ports).map
    (fun r => { s with vessels := r.1, ports := r.2 })

/-- The `per_step_factors` snapshot of `_process_berth_operations`. -/
def perStepFactor (stepsPerDay : ℕ) (ps : PortState) : ℚ :=
  if stepsPerDay = 0 then ps.daily_capacity
  else ps.daily_capacity / (stepsPerDay : ℚ)

def perStepFactors (ports : List (String × PortState)) (stepsPerDay : ℕ) :
    List (String × ℚ) :=
  ports.map (fun e => (e.1, perStepFactor stepsPerDay e.2))

/-- Threaded accumulator for the berth-operations pass. -/
structure BerthAcc where
  vessels : List (String × VesselState)
  costPH : ℚ
  costDem : ℚ
deriving Repr, DecidableEq

/-- `self.port_lookup.get(port_id, \x7b\x7d).get('handling_cost_per_mt', 0.0)`:
the table handling rate of a port id, 0 when unknown. -/
def handlingRateOf (t : Tables) (pid : String) : ℚ :=
  ((dictLookup (portLookup t) pid).map (fun p => p.handling_cost_per_mt)).getD 0

/-- Discharge/departure half of the per-port body of
`_process_berth_operations`: discharge from the currently berthed vessel
bounded by `min(cargo remaining, per-step factor, throughput budget)`
(accruing port-handling cost and pushing the discharged batch into this
port's inventory), then departure when the vessel is empty. -/
def dischargePhase (t : Tables) (factors : List (String × ℚ))
    (tstep : ℤ) (pid : String) (ps : PortState) (acc : BerthAcc) :
    PortState × BerthAcc :=
  match ps.current_vessel with
  | none => (ps, acc)
  | some vid =>
    match dictLookup acc.vessels vid with
    | none => (ps, acc)  -- unreachable: the berth always holds a vessel-state key
    | some vs =>
      let step_capacity := (dictLookup factors pid).getD vs.cargo_remaining
      let discharge :=
        min vs.cargo_remaining (min step_capacity ps.throughput_remaining)
      let afterDischarge : PortState × BerthAcc × VesselState :=
        if 0 < discharge then
          let grade :=
            match dictLookup (vesselLookup t) vid with
            | some vd => vd.cargo_grade
            | none => "UNKNOWN"
          let vs1 := { vs with cargo_remaining := vs.cargo_remaining - discharge }
          let ps1 :=
            { ps with
              throughput_remaining := max 0 (ps.throughput_remaining - discharge)
              total_handled := ps.total_handled + discharge
              inventory := ps.inventory ++
                [{ vessel_id := vid, cargo_mt := discharge,
                   remaining_mt := discharge, grade := grade, age_days := 0 }]
              discharged_today := ps.discharged_today + discharge }
          (ps1,
            { acc with
              vessels := aset acc.vessels vid vs1
              costPH := acc.costPH + discharge * handlingRateOf t pid },
            vs1)
        else (ps, acc, vs)
      let ps2 := afterDischarge.1
      let acc2 := afterDischarge.2.1
      let vs2 := afterDischarge.2.2
      if vs2.cargo_remaining ≤ 0 then
        (({ ps2 with current_vessel := none }),
          { acc2 with
            vessels := aset acc2.vessels vid
              { vs2 with status := .departed, departure_time_step := some tstep } })
      else (ps2, acc2)

/-- Berthing half of the per-port body: berth the head of the queue once
its planned step has come, accruing demurrage
`max(0, t − planned) × step_hours / 24 × rate`. -/
def berthPhase (t : Tables) (stepHours : ℕ) (tstep : ℤ)
    (pa : PortState × BerthAcc) : PortState × BerthAcc :=
  let ps3 := pa.1
  let acc3 := pa.2
  match ps3.current_vessel, ps3.vessels_queue with
  | none, next :: queueRest =>
    (match dictLookup acc3.vessels next with
     | none => (ps3, acc3)  -- unreachable: queue members are vessel-state keys
     | some vs =>
       let planned := vs.planned_berth_time_step.getD vs.planned_eta_time_step
       if tstep ≥ planned then
         let delay_steps := max 0 (tstep - planned)
         let delay_days := ((delay_steps * (stepHours : ℤ)) : ℚ) / 24
         let rate :=
           ((dictLookup (vesselLookup t) next).map
             (fun v => v.demurrage_rate)).getD 0
         let dem := delay_days * rate
         ({ ps3 with current_vessel := some next, vessels_queue := queueRest },
           { acc3 with
             vessels := aset acc3.vessels next
               { vs with
                 status := .berthed
                 berth_time_step := some tstep
                 demurrage_cost := dem }
             costDem := acc3.costDem + dem })
       else (ps3, acc3))
  | _, _ => (ps3, acc3)

/-- Per-port body of `_process_berth_operations`. -/
def processPortBerth (t : Tables) (stepHours : ℕ) (factors : List (String × ℚ))
    (tstep : ℤ) (pid : String) (ps : PortState) (acc : BerthAcc) :
    PortState × BerthAcc :=
  berthPhase t stepHours tstep (dischargePhase t factors tstep pid ps acc)

def berthOpsGo (t : Tables) (stepHours : ℕ) (factors : List (String × ℚ))
    (tstep : ℤ) :
    List (String × PortState) → BerthAcc → List (String × PortState) × BerthAcc
  | [], acc => ([], acc)
  | (pid, ps) :: rest, acc =>
    let r1 := processPortBerth t stepHours factors tstep pid ps acc
    let r2 := berthOpsGo t stepHours factors tstep rest r1.2
    ((pid, r1.1) :: r2.1, r2.2)

/-- `_process_berth_operations`. -/
def processBerthOperations (t : Tables) (stepHours : ℕ) (tstep : ℤ)
    (s : SimState) : SimState :=
  let spd := 24 / stepHours
  let factors := perStepFactors s.ports spd
  let r := berthOpsGo t stepHours factors tstep s.ports
    ⟨s.vessels, s.cost_port_handling, s.cost_demurrage⟩
  { s with
    ports := r.1
    vessels := r.2.vessels
    cost_port_handling := r.2.costPH
    cost_demurrage := r.2.costDem }

/-- Replace the `i`-th element of a list (identity when out of range). -/
def modifyAt {α : Type} (l : List α) (i : ℕ) (f : α → α) : List α :=
  match l, i with
  | [], _ => []
  | a :: rest, 0 => f a :: rest
  | a :: rest, j + 1 => a :: modifyAt rest j f

/-- The `while` loop of `_assign_rakes_to_vessel`: pops one available rake
per round, loads it from the matching-grade inventory (bounded by the rake
capacity `DEFAULT_RAKE_CAPACITY_MT = 4000`, the assignment's remaining
cargo, and the inventory), sends
it in transit, decrements the daily rake budget, and accrues rail cost. -/
def assignLoop (t : Tables) (stepHours : ℕ) (tstep : ℤ) (vid : String)
    (i : ℕ) (grade : Option String) :
    List String → SimState → SimState
  | [], s => s
  | rid :: restRakes, s =>
    match dictLookup s.vessels vid with
    | none => s
    | some vs =>
      match vs.assignments.get? i with
      | none => s
      | some ast =>
        if ast.remaining_cargo ≤ 0 then s
        else
          match dictLookup s.ports vs.port_id with
          | none => s
          | some ps =>
            if ps.rakes_remaining ≤ 0 then s
            else
              let inventory_available := inventoryRemaining ps grade
              if inventory_available ≤ 0 then s
              else
                let desired :=
                  min 4000 (min ast.remaining_cargo inventory_available)
                let cr := consumePortInventory s.ports vs.port_id desired grade
                let s1 := { s with ports := cr.1 }
                if cr.2 ≤ 0 then s1
                else
                  let loaded := cr.2
                  let transit := getTransitTime t ast.port_id ast.plant_id stepHours
                  let s2 :=
                    { s1 with
                      ports := aupd s1.ports vs.port_id
                        (fun p =>
                          { p with
                            rakes_remaining := max 0 (p.rakes_remaining - 1)
                            total_dispatched := p.total_dispatched + loaded })
                      rakes := aset s1.rakes rid
                        { status := .inTransit
                          home_port :=
                            ((dictLookup s1.rakes rid).map
                              (fun r => r.home_port)).getD vs.port_id
                          current_location := some "en_route"
                          cargo_mt := loaded
                          destination_plant := some ast.plant_id
                          arrival_time_step := some (tstep + 1 + transit) }
                      vessels := aset s1.vessels vid
                        { vs with
                          handled_cargo := vs.handled_cargo + loaded
                          assignments := modifyAt vs.assignments i
                            (fun a =>
                              { a with
                                remaining_cargo := max 0 (a.remaining_cargo - loaded) }) }
                      cost_rail_transport :=
                        s1.cost_rail_transport + loaded * ast.rail_cost_per_mt }
                  assignLoop t stepHours tstep vid i grade restRakes s2

/-- `_assign_rakes_to_vessel`: snapshot the rakes currently available at the
vessel's port, then run the loading loop.  The transit lookup uses the
assignment's own port/plant pair, as the source does. -/
def assignRakesToVessel (t : Tables) (stepHours : ℕ) (tstep : ℤ) (vid : String)
    (i : ℕ) (s : SimState) : SimState :=
  match dictLookup s.vessels vid with
  | none => s
  | some vs =>
    match dictLookup s.ports vs.port_id with
    | none => s
    | some _ =>
      let available :=
        (s.rakes.filter (fun e =>
          e.2.status = .available ∧ e.2.current_location = some vs.port_id)).map
          (fun e => e.1)
      if available = [] then s
      else
        let grade :=
          (dictLookup (vesselLookup t) vid).map (fun vd => vd.cargo_grade)
        assignLoop t stepHours tstep vid i grade available s

/-- The `for assignment in vessel_state['assignments']` loop, by index (the
assignment dicts are mutated in place by the loading loop); breaks when the
port's daily rake budget is exhausted. -/
def vesselAssignsLoop (t : Tables) (stepHours : ℕ) (tstep : ℤ) (vid : String) :
    ℕ → ℕ → SimState → SimState
  | 0, _, s => s
  | fuel + 1, i, s =>
    match dictLookup s.vessels vid with
    | none => s
    | some vs =>
      match vs.assignments.get? i with
      | none => s
      | some ast =>
        if ast.vessel_id ≠ vid ∨ ast.remaining_cargo ≤ 0 then
          vesselAssignsLoop t stepHours tstep vid fuel (i + 1) s
        else
          let s1 := assignRakesToVessel t stepHours tstep vid i s
          match dictLookup s1.vessels vid with
          | none => s1
          | some vs1 =>
            match dictLookup s1.ports vs1.port_id with
            | none => s1
            | some ps1 =>
              if ps1.rakes_remaining ≤ 0 then s1
              else vesselAssignsLoop t stepHours tstep vid fuel (i + 1) s1

/-- Per-vessel guard of the rake-assignment pass: skip vessels with no
assignments, an unknown port, an exhausted rake budget, or no
matching-grade inventory. -/
def processVesselRakes (t : Tables) (stepHours : ℕ) (tstep : ℤ) (vid : String)
    (s : SimState) : SimState :=
  match dictLookup s.vessels vid with
  | none => s
  | some vs =>
    if vs.assignments = [] then s
    else
      match dictLookup s.ports vs.port_id with
      | none => s
      | some ps =>
        if ps.rakes_remaining ≤ 0 then s
        else
          let grade :=
            (dictLookup (vesselLookup t) vid).map (fun vd => vd.cargo_grade)
          if inventoryRemaining ps grade ≤ 0 then s
          else vesselAssignsLoop t stepHours tstep vid vs.assignments.length 0 s

def rakeAssignPhase (t : Tables) (stepHours : ℕ) (tstep : ℤ) :
    List String → SimState → SimState
  | [], s => s
  | vid :: rest, s =>
    rakeAssignPhase t stepHours tstep rest (processVesselRakes t stepHours tstep vid s)

/-- Python truthiness of `rake_state['arrival_time_step']`: `None` and `0`
are both falsy. -/
def arrivalDue (arrival : Option ℤ) (tstep : ℤ) : Bool :=
  match arrival with
  | none => false
  | some a => a ≠ 0 ∧ tstep ≥ a

/-- The rake-advancement pass of `_process_rake_operations`: in-transit
rakes whose arrival step has come start unloading (2 further steps);
unloading rakes deliver to their plant (incrementing received totals and
the trip counter) and return home Available. -/
def rakeUpdateGo (tstep : ℤ) :
    List (String × RakeState) → List (String × PlantState) → ℕ →
    List (String × RakeState) × List (String × PlantState) × ℕ
  | [], plants, trips => ([], plants, trips)
  | (rid, rs) :: rest, plants, trips =>
    match rs.status with
    | .inTransit =>
      if arrivalDue rs.arrival_time_step tstep then
        let rs1 :=
          { rs with
            status := .unloading
            current_location := rs.destination_plant
            arrival_time_step := some (tstep + 2) }
        let r := rakeUpdateGo tstep rest plants trips
        ((rid, rs1) :: r.1, r.2.1, r.2.2)
      else
        let r := rakeUpdateGo tstep rest plants trips
        ((rid, rs) :: r.1, r.2.1, r.2.2)
    | .unloading =>
      if arrivalDue rs.arrival_time_step tstep then
        let delivered := rs.cargo_mt
        let plants1 :=
          match rs.destination_plant with
          | some plid =>
            if (dictLookup plants plid).isSome then
              aupd plants plid
                (fun pst =>
                  { pst with
                    total_received := pst.total_received + delivered
                    demand_remaining := max 0 (pst.demand_remaining - delivered)
                    daily_received := pst.daily_received + delivered })
            else plants
          | none => plants
        let rs1 : RakeState :=
          { status := .available
            home_port := rs.home_port
            current_location := some rs.home_port
            cargo_mt := 0
            destination_plant := none
            arrival_time_step := none }
        let r := rakeUpdateGo tstep rest plants1 (trips + 1)
        ((rid, rs1) :: r.1, r.2.1, r.2.2)
      else
        let r := rakeUpdateGo tstep rest plants trips
        ((rid, rs) :: r.1, r.2.1, r.2.2)
    | _ =>
      let r := rakeUpdateGo tstep rest plants trips
      ((rid, rs) :: r.1, r.2.1, r.2.2)

/-- `_process_rake_operations`. -/
def processRakeOperations (t : Tables) (stepHours : ℕ) (tstep : ℤ)
    (s : SimState) : SimState :=
  let s1 := rakeAssignPhase t stepHours tstep (s.vessels.map (fun e => e.1)) s
  let r := rakeUpdateGo tstep s1.rakes s1.plants s1.rake_trip_count
  { s1 with rakes := r.1, plants := r.2.1, rake_trip_count := r.2.2 }

/-- One iteration of the main loop of `run_simulation`.  A step size above
24 hours makes `steps_per_day` zero and the Python modulo raise
`ZeroDivisionError` on the first executed step. -/
def simStep (t : Tables) (stepHours : ℕ) (tstep : ℕ) (s : SimState) :
    Except String SimState := do
  let spd := 24 / stepHours
  if spd = 0 then .error "ZeroDivisionError"
  else
    let s1 :=
      if tstep % spd = 0 then
        resetPlantDailyReceipts
          (agePortInventories
            (resetDailyLimits s ((tstep * stepHours) / 24 : ℕ)))
      else s
    let s2 ← processVesselArrivals (tstep : ℤ) s1
    let s3 := processBerthOperations t stepHours (tstep : ℤ) s2
    let s4 := processRakeOperations t stepHours (tstep : ℤ) s3
    let s5 := if tstep % spd = 0 then resetPlantDailyReceipts s4 else s4
    return s5

/-- Run `fuel` consecutive simulation steps starting at step `tstep`. -/
def runSteps (t : Tables) (stepHours : ℕ) :
    ℕ → ℕ → SimState → Except String SimState
  | 0, _, s => .ok s
  | fuel + 1, tstep, s =>
    (simStep t stepHours tstep s).bind (runSteps t stepHours fuel (tstep + 1))

/-- The KPI dict of `_calculate_final_kpis`. -/
structure KPIs where
  demurrage_cost : ℚ
  port_handling_cost : ℚ
  rail_transport_cost : ℚ
  total_cost : ℚ
  demand_fulfillment_pct : ℚ
  total_cargo_delivered : ℚ
  total_demand : ℚ
  vessels_processed_pct : ℚ
  avg_vessel_wait_hours : ℚ
  avg_rake_utilization : ℚ
deriving Repr, DecidableEq

/-- The port dict built over `set_index` semantics (last duplicate wins),
used by the rake-utilization KPI. -/
def portDictItems (t : Tables) : List (String × Port) :=
  t.ports.foldl (fun m p => aset m p.port_id p) []

/-- `LogisticsSimulator._calculate_final_kpis`. -/
def calculateFinalKpis (t : Tables) (stepHours days : ℕ) (s : SimState) : KPIs :=
  let dem := s.cost_demurrage
  let ph := s.cost_port_handling
  let rt := s.cost_rail_transport
  let total_demand :=
    (t.plants.map (fun p => p.daily_demand_mt * (days : ℚ))).sum
  let total_delivered :=
    (s.plants.map (fun e => e.2.total_received)).sum
  let fulfill :=
    if total_demand > 0 then total_delivered / total_demand * 100 else 0
  let departed :=
    (s.vessels.filter (fun e => e.2.status = .departed)).length
  let total_vessels := s.vessels.length
  let processed :=
    if total_vessels > 0 then
      (departed : ℚ) / (total_vessels : ℚ) * 100
    else 0
  let waitData :=
    s.vessels.foldl
      (fun (acc : ℚ × ℕ) e =>
        match e.2.berth_time_step with
        | none => acc
        | some b =>
          let w := max 0 (b - e.2.planned_eta_time_step)
          if 0 < w then (acc.1 + ((w * (stepHours : ℤ)) : ℚ), acc.2 + 1) else acc)
      (0, 0)
  let avg_wait := if waitData.2 > 0 then waitData.1 / (waitData.2 : ℚ) else 0
  let total_rakes := s.rakes.length
  let theoretical :=
    ((portDictItems t).map (fun e => (e.2.rakes_available_per_day : ℚ))).sum * days
  let util :=
    if theoretical > 0 then (s.rake_trip_count : ℚ) / theoretical
    else if total_rakes > 0 then (s.rake_trip_count : ℚ) / (total_rakes : ℚ)
    else 0
  { demurrage_cost := dem
    port_handling_cost := ph
    rail_transport_cost := rt
    total_cost := dem + ph + rt
    demand_fulfillment_pct := fulfill
    total_cargo_delivered := total_delivered
    total_demand := total_demand
    vessels_processed_pct := processed
    avg_vessel_wait_hours := avg_wait
    avg_rake_utilization := util }

/-- The result dict of `run_simulation` restricted to its value-level
content (state snapshots and the event log aside). -/
structure SimResult where
  kpis : KPIs
  cost_components : CostDict
  plant_deliveries : List (String × ℚ)
  simulation_days : ℕ
deriving Repr, DecidableEq

/-- `LogisticsSimulator.run_simulation`: build the initial state, run
`int(days*24/step)` fixed steps, and compute the final KPIs.  The
simulator consults no random source: the whole run is a pure function of
the tables, the assignment list, the horizon and the step size. -/
def runSimulation (t : Tables) (assignments : List Assignment)
    (days stepHours : ℕ) : Except String SimResult :=
  if stepHours = 0 then .error "ZeroDivisionError"
  else
    let total := days * 24 / stepHours
    let s0 := initSim t assignments days stepHours
    (runSteps t stepHours total 0 s0).map
      (fun sF =>
        { kpis := calculateFinalKpis t stepHours days sF
          cost_components :=
            { port_handling := sF.cost_port_handling
              rail_transport := sF.cost_rail_transport
              demurrage := sF.cost_demurrage
              total := sF.cost_demurrage + sF.cost_port_handling +
                sF.cost_rail_transport }
          plant_deliveries := sF.plants.map (fun e => (e.1, e.2.total_received))
          simulation_days := days })

end LogisticsSimulator

/-! ## Concrete fixtures

Small instances of the input contract, used to witness the theorems below
and to exhibit counterexamples. -/

/-- A two-vessel fixture: `V1` carries grade `IRON` (which plant `PL1`
accepts); `V2` carries grade `RARE`, which no plant accepts. -/
def tW : Tables :=
  { vessels := [
      { vessel_id := "V1", cargo_mt := 1000, eta_day := 1, port_id := "P1",
        secondary_port_id := ["P2"], cargo_grade := "IRON", demurrage_rate := 2400 },
      { vessel_id := "V2", cargo_mt := 800, eta_day := 2, port_id := "P1",
        secondary_port_id := [], cargo_grade := "RARE", demurrage_rate := 1000 }]
    ports := [
      { port_id := "P1", handling_cost_per_mt := 10, daily_capacity_mt := 2000,
        rakes_available_per_day := 5 },
      { port_id := "P2", handling_cost_per_mt := 12, daily_capacity_mt := 1500,
        rakes_available_per_day := 3 }]
    plants := [
      { plant_id := "PL1", daily_demand_mt := 500, quality_requirements := "IRON" }]
    railCosts := [
      { port_id := "P1", plant_id := "PL1", cost_per_mt := 7, transit_days := 2 }] }

/-- The vessel row of `V1` in `tW`. -/
def vW : Vessel :=
  { vessel_id := "V1", cargo_mt := 1000, eta_day := 1, port_id := "P1",
    secondary_port_id := ["P2"], cargo_grade := "IRON", demurrage_rate := 2400 }

/-- The FCFS baseline assignment of `V1` in `tW` (zero predicted delays). -/
def aW : Assignment :=
  { vessel_id := "V1", port_id := "P1", plant_id := "PL1", time_period := 1,
    scheduled_day := some 1, cargo_mt := 1000, berth_time := some 1,
    actual_berth_time := some 1, planned_berth_time := some 1,
    predicted_delay_days := some 0, rakes_required := 1 }

/-- `aW` with its port replaced by an id absent from the ports table. -/
def aBadPort : Assignment := { aW with port_id := "PX" }

/-- An assignment whose vessel id and port id are both absent from the
tables: the cost loop's port repair cannot resolve it, so the penalty
loop's direct `port_lookup` indexing raises. -/
def aOrphan : Assignment := { aW with vessel_id := "VX", port_id := "PX" }

/-- An assignment referencing a plant id absent from the plants table. -/
def aUnknownPlant : Assignment :=
  { aW with plant_id := "NOPE", cargo_mt := 100 }

/-! ## Theorems -/

/-- The FCFS baseline assignments of `tW` under zero predicted delays. -/
def baseW : List Assignment :=
  MILPOptimizer.createBaselineAssignments tW (fun _ => 0)

/-- The annealing state used to witness the monotonicity theorem. -/
def stW : HeuristicOptimizer.SAState := ⟨[], 0, [], 0, 100⟩

/-- The result of annealing `tW`'s baseline seed for zero iterations. -/
def rGood : HeuristicOptimizer.SAResult × List Assignment :=
  (⟨17000, [aW], 0, -17000⟩, [aW])

/-- The gene list used to witness the repair theorem: a known vessel with
an out-of-allowed port and a missing berth day. -/
def indRepair : List HeuristicOptimizer.Gene := [⟨"V1", "PX", "PL1", none⟩]

/-- A one-vessel instance whose only plant accepts a different grade than
the vessel carries: vessel `V1` holds `IRON`, plant `PL1` demands `COAL`. -/
def tG : Tables :=
  { vessels := [
      { vessel_id := "V1", cargo_mt := 1000, eta_day := 1, port_id := "P1",
        secondary_port_id := [], cargo_grade := "IRON", demurrage_rate := 0 }]
    ports := [
      { port_id := "P1", handling_cost_per_mt := 10, daily_capacity_mt := 2000,
        rakes_available_per_day := 5 }]
    plants := [
      { plant_id := "PL1", daily_demand_mt := 500, quality_requirements := "COAL" }]
    railCosts := [
      { port_id := "P1", plant_id := "PL1", cost_per_mt := 5, transit_days := 2 }] }

/-- A feasible (indeed forced: the model's cargo conservation makes every
feasible point ship all 1000 MT to the grade-incompatible plant) point of
the exact solver's model on `tG` with a one-day horizon. -/
def solG : MILPOptimizer.MilpSol :=
  { x := fun v p pl tp => if v = "V1" ∧ p = "P1" ∧ pl = "PL1" ∧ tp = 1 then 1000 else 0
    y := fun v p tp => if v = "V1" ∧ p = "P1" ∧ tp = 1 then 1 else 0
    z := fun p pl tp => if p = "P1" ∧ pl = "PL1" ∧ tp = 1 then 1 else 0
    d := fun _ => 0 }

/-- Key-capacity-handled projection of a port-state entry. -/
def portCapHandled (e : String × LogisticsSimulator.PortState) : String × ℚ × ℚ :=
  (e.1, e.2.daily_capacity, e.2.total_handled)

/-- The projection of a whole simulation state's ports. -/
def portsProj (s : LogisticsSimulator.SimState) : List (String × ℚ × ℚ) :=
  s.ports.map portCapHandled

/-- The inductive invariant behind the zero-capacity-port property:
port keys are unique, a port with zero daily capacity has handled nothing,
and the global port-handling cost decomposes as
`Σ handling_rate(port) × total_handled(port)`. -/
def SimInv (t : Tables) (s : LogisticsSimulator.SimState) : Prop :=
  ((s.ports.map (fun e => e.1)).Nodup) ∧
  (∀ e ∈ s.ports, e.2.daily_capacity = 0 → e.2.total_handled = 0) ∧
  s.cost_port_handling =
    ((s.ports.map (fun e =>
      LogisticsSimulator.handlingRateOf t e.1 * e.2.total_handled)).sum)

/-- A one-vessel fixture whose only port `P0` has zero daily capacity: the
berthed vessel can never discharge. -/
def tZ : Tables :=
  { vessels := [
      { vessel_id := "V1", cargo_mt := 100, eta_day := 0, port_id := "P0",
        secondary_port_id := [], cargo_grade := "IRON", demurrage_rate := 1000 }]
    ports := [
      { port_id := "P0", handling_cost_per_mt := 10, daily_capacity_mt := 0,
        rakes_available_per_day := 1 }]
    plants := []
    railCosts := [] }

/-- Two 24-hour steps of the simulator on `tZ` (no optimizer assignments). -/
def sZrun : Except String LogisticsSimulator.SimState :=
  LogisticsSimulator.runSteps tZ 24 2 0 (LogisticsSimulator.initSim tZ [] 2 24)

/-- The state those two steps reach. -/
def sZ : LogisticsSimulator.SimState :=
  match sZrun with
  | .ok s => s
  | .error _ => ⟨[], [], [], [], 0, 0, 0, 0⟩

/-- C3 (amended): for a (port, plant) pair with no rail-costs row, the exact
solver's and the heuristic refiner's lookups return the constant `100.0`
per MT, while the simulator's lookup returns the dataset-wide mean
`cost_per_mt` (or `0.0` on an empty rail table). -/
theorem rail_fallback_policies (t : Tables) (pid plid : String)
    (hmiss : railRows t pid plid = []) :
    MILPOptimizer.getRailCost t pid plid = 100 ∧
    HeuristicOptimizer.getRailCost t pid plid = 100 ∧
    LogisticsSimulator.getRailCost t pid plid =
      (if t.railCosts = [] then 0 else railCostMean t) := by
  unfold MILPOptimizer.getRailCost HeuristicOptimizer.getRailCost
    LogisticsSimulator.getRailCost
  rw [hmiss]
  exact ⟨rfl, rfl, rfl⟩

theorem rail_fallback_policies_witness :
    railRows tW "P2" "PL9" = [] ∧
    (MILPOptimizer.getRailCost tW "P2" "PL9" = 100 ∧
     HeuristicOptimizer.getRailCost tW "P2" "PL9" = 100 ∧
     LogisticsSimulator.getRailCost tW "P2" "PL9" =
       (if tW.railCosts = [] then 0 else railCostMean tW)) :=
  ⟨by decide, rail_fallback_policies tW "P2" "PL9" (by decide)⟩

/-- C3 (counterexample): the heuristic refiner's rail lookup on a missing
pair returns 100, which is not the dataset-wide mean (7 on `tW`), refuting
the claim that all three lookups fall back to the mean. -/
theorem rail_fallback_cex :
    railRows tW "P2" "PL9" = [] ∧
    HeuristicOptimizer.getRailCost tW "P2" "PL9" = 100 ∧
    MILPOptimizer.getRailCost tW "P2" "PL9" = 100 ∧
    railCostMean tW = 7 ∧ (100 : ℚ) ≠ 7 := by decide

/-- C4 (code bug): the shared cost model's demurrage function divides the
berth-time difference by 24 before multiplying by the daily rate.  For
day-valued berth times (actual day 7, planned day 5, rate 2400/day) it
returns 200, while `max(0, actual − planned) [days] × rate` is 4800 --
every other demurrage site in the code multiplies the day difference by
the rate directly. -/
theorem demurrage_divides_by_24 :
    CostCalculator.calculateDemurrageCost vW (some 7) (some 5) = 200 ∧
    max 0 ((7 : ℚ) - 5) * vW.demurrage_rate = 4800 ∧
    ((200 : ℚ) ≠ 4800) := by decide

/-- C8 (confirmed): the simulator is a pure function of the tables, the
assignment list, the horizon and the step size — it consults no random
source — so two runs on identical inputs return identical KPI dictionaries
and cost components (indeed identical whole results). -/
theorem simulation_deterministic (t t' : Tables) (a a' : List Assignment)
    (days days' stepHours stepHours' : ℕ)
    (ht : t = t') (ha : a = a') (hd : days = days') (hs : stepHours = stepHours') :
    LogisticsSimulator.runSimulation t a days stepHours =
      LogisticsSimulator.runSimulation t' a' days' stepHours' := by
  subst ht; subst ha; subst hd; subst hs; rfl

theorem simulation_deterministic_witness :
    LogisticsSimulator.runSimulation tW baseW 2 24 =
      LogisticsSimulator.runSimulation tW baseW 2 24 ∧
    (LogisticsSimulator.runSimulation tW baseW 2 24).isOk = true :=
  ⟨simulation_deterministic tW tW baseW baseW 2 2 24 24 rfl rfl rfl rfl, by decide⟩

/-- One annealing iteration never increases the tracked best cost: the best
pair is overwritten only when the accepted neighbor's cost is strictly
below it. -/
theorem saStep_bestCost_le (t : Tables) (nf : List Assignment → List Assignment)
    (aw : Bool) (cooling : ℚ) (s s' : HeuristicOptimizer.SAState)
    (h : HeuristicOptimizer.saStep t nf aw cooling s = .ok s') :
    s'.bestCost ≤ s.bestCost := by
  unfold HeuristicOptimizer.saStep at h
  dsimp only at h
  cases hc : HeuristicOptimizer.calculateTotalCost t (nf s.current) with
  | error e => rw [hc] at h; cases h
  | ok nc =>
    rw [hc] at h
    simp only at h
    by_cases h1 : nc < s.currentCost
    · rw [if_pos h1] at h
      by_cases h2 : nc < s.bestCost
      · rw [if_pos h2] at h
        cases h
        exact le_of_lt h2
      · rw [if_neg h2] at h
        cases h
        exact le_refl _
    · rw [if_neg h1] at h
      cases aw with
      | true => rw [if_pos rfl] at h; cases h; exact le_refl _
      | false => rw [if_neg Bool.false_ne_true] at h; cases h; exact le_refl _

/-- C5 (confirmed): across the simulated-annealing loop, the tracked best
cost is monotonically nonincreasing — after iteration `k+1` it is at most
its value after iteration `k`, for every choice of neighbor generation and
worse-acceptance draws. -/
theorem annealing_best_cost_monotone (t : Tables)
    (nf : ℕ → List Assignment → List Assignment) (aw : ℕ → Bool) (cooling : ℚ)
    (st : HeuristicOptimizer.SAState) (k : ℕ)
    (s s' : HeuristicOptimizer.SAState)
    (h1 : HeuristicOptimizer.saRun t nf aw cooling st k = .ok s)
    (h2 : HeuristicOptimizer.saRun t nf aw cooling st (k + 1) = .ok s') :
    s'.bestCost ≤ s.bestCost := by
  have hstep : HeuristicOptimizer.saRun t nf aw cooling st (k + 1) =
      (HeuristicOptimizer.saRun t nf aw cooling st k).bind
        (fun x => HeuristicOptimizer.saStep t (nf k) (aw k) cooling x) := rfl
  rw [hstep, h1] at h2
  exact saStep_bestCost_le t (nf k) (aw k) cooling s s' h2

theorem annealing_best_cost_monotone_witness :
    HeuristicOptimizer.saRun tW (fun _ l => l) (fun _ => false) 1 stW 0 = .ok stW ∧
    HeuristicOptimizer.saRun tW (fun _ l => l) (fun _ => false) 1 stW 1 = .ok stW ∧
    stW.bestCost ≤ stW.bestCost :=
  ⟨rfl, by rfl,
    annealing_best_cost_monotone tW (fun _ l => l) (fun _ => false) 1 stW 0 stW stW
      rfl (by rfl)⟩

/-- Mapping a function that fixes every element of a list is the identity. -/
theorem map_id_of_eq {α : Type} (l : List α) (f : α → α)
    (h : ∀ a ∈ l, f a = a) : l.map f = l := by
  induction l with
  | nil => rfl
  | cons a rest ih =>
    simp only [List.map_cons, h a (by simp), ih (fun x hx => h x (by simp [hx]))]

/-- The in-place repair leaves an assignment with a known port untouched. -/
theorem costLoopUpdate_eq_self (t : Tables) (a : Assignment)
    (h : (dictLookup (portLookup t) a.port_id).isSome) :
    HeuristicOptimizer.costLoopUpdate t a = a := by
  unfold HeuristicOptimizer.costLoopUpdate
  cases hl : dictLookup (portLookup t) a.port_id with
  | none => rw [hl] at h; cases h
  | some p => rfl

/-- C10 (amended): the annealing loop works on copies of the accepted
lists, and the seed's assignment dicts survive the call unchanged provided
every seed assignment carries a known `port_id`; (only) the initial cost
evaluation may repair an unknown port in place through the shared dicts. -/
theorem sa_seed_unchanged_when_ports_known (t : Tables)
    (nf : ℕ → List Assignment → List Assignment) (aw : ℕ → Bool)
    (seed : List Assignment) (maxIter : ℕ) (T c obj : ℚ)
    (h : ∀ a ∈ seed, (dictLookup (portLookup t) a.port_id).isSome)
    (r : HeuristicOptimizer.SAResult × List Assignment)
    (hr : HeuristicOptimizer.runSimulatedAnnealing t nf aw seed maxIter T c obj
      = .ok r) :
    r.2 = seed := by
  unfold HeuristicOptimizer.runSimulatedAnnealing at hr
  cases hc : HeuristicOptimizer.calculateTotalCost t seed with
  | error e => rw [hc] at hr; cases hr
  | ok c0 =>
    rw [hc] at hr
    simp only [Except.bind, bind] at hr
    cases hs : HeuristicOptimizer.saRun t nf aw c
        ⟨seed.map (HeuristicOptimizer.costLoopUpdate t), c0,
         seed.map (HeuristicOptimizer.costLoopUpdate t), c0, T⟩ maxIter with
    | error e => rw [hs] at hr; cases hr
    | ok stF =>
      rw [hs] at hr
      simp only [Except.map, pure, Except.pure] at hr
      cases hr
      exact map_id_of_eq seed _ (fun a ha => costLoopUpdate_eq_self t a (h a ha))

theorem sa_seed_unchanged_witness :
    (∀ a ∈ [aW], (dictLookup (portLookup tW) a.port_id).isSome) ∧
    HeuristicOptimizer.runSimulatedAnnealing tW (fun _ l => l) (fun _ => false)
      [aW] 0 10000 1 0 = .ok rGood ∧
    rGood.2 = [aW] :=
  ⟨by decide, by rfl,
    sa_seed_unchanged_when_ports_known tW (fun _ l => l) (fun _ => false)
      [aW] 0 10000 1 0 (by decide) rGood (by rfl)⟩

/-- C10 (counterexample): seeding the annealing stage with an assignment
whose `port_id` (`PX`) is not a known port mutates the seed in place — the
initial cost evaluation overwrites the shared dict's `port_id` with the
vessel's primary port `P1` — so after the (successful) call the seed's
assignment list is no longer what was passed in. -/
theorem sa_seed_mutated_cex :
    HeuristicOptimizer.runSimulatedAnnealing tW (fun _ l => l) (fun _ => false)
      [aBadPort] 0 10000 1 0 = .ok rGood ∧
    rGood.2 ≠ [aBadPort] := by
  exact ⟨by rfl, by decide⟩

/-- The allowed-ports fold never disturbs the primary port at the head. -/
theorem parse_foldl_head (t : Tables) (toks : List String) :
    ∀ (a : String) (l : List String), ∃ rest,
      toks.foldl
        (fun allowed tok =>
          if tok ≠ "" ∧ tok ∉ allowed ∧ (dictLookup (portLookup t) tok).isSome
          then allowed ++ [tok] else allowed) (a :: l) = a :: rest := by
  induction toks with
  | nil => exact fun a l => ⟨l, rfl⟩
  | cons tk rest ih =>
    intro a l
    simp only [List.foldl_cons]
    split
    · simpa using ih a (l ++ [tk])
    · exact ih a l

/-- `parseAllowedPorts` puts the vessel's primary port first. -/
theorem parseAllowedPorts_cons (t : Tables) (v : Vessel) :
    ∃ rest, HeuristicOptimizer.parseAllowedPorts t v = v.port_id :: rest := by
  unfold HeuristicOptimizer.parseAllowedPorts
  exact parse_foldl_head t v.secondary_port_id v.port_id []

/-- The per-gene conversion picks a port inside the allowed list. -/
theorem geneToAssignment_port_mem (hd : String → String → ℚ) (g : HeuristicOptimizer.Gene)
    (vd : Vessel) (p0 : String) (rest : List String) :
    (HeuristicOptimizer.geneToAssignment hd g vd (p0 :: rest) p0).port_id ∈ p0 :: rest := by
  unfold HeuristicOptimizer.geneToAssignment
  dsimp only
  split
  · assumption
  · exact List.mem_cons_self p0 rest

/-- Structure of a successful individual conversion: one assignment per
gene, each produced by `geneToAssignment` over the gene's vessel row and
its primary-first allowed list. -/
theorem individualToAssignments_spec (t : Tables) (hd : String → String → ℚ)
    (ind : List HeuristicOptimizer.Gene)
    (h : ∀ g ∈ ind, (dictLookup (vesselLookup t) g.vesselId).isSome) :
    ∃ l, HeuristicOptimizer.individualToAssignments t hd ind = .ok l ∧
      ∀ a ∈ l, ∃ g ∈ ind, ∃ vd, dictLookup (vesselLookup t) g.vesselId = some vd ∧
        ∃ rest, HeuristicOptimizer.parseAllowedPorts t vd = vd.port_id :: rest ∧
          a = HeuristicOptimizer.geneToAssignment hd g vd (vd.port_id :: rest) vd.port_id := by
  induction ind with
  | nil => exact ⟨[], rfl, by simp⟩
  | cons g gs ih =>
    have hg : (dictLookup (vesselLookup t) g.vesselId).isSome := h g (by simp)
    cases hvd : dictLookup (vesselLookup t) g.vesselId with
    | none => rw [hvd] at hg; cases hg
    | some vd =>
      obtain ⟨rest, hrest⟩ := parseAllowedPorts_cons t vd
      obtain ⟨l', hl', hprop⟩ := ih (fun g hgm => h g (by simp [hgm]))
      have hallow : (HeuristicOptimizer.allowedPortsOf t g.vesselId).getD [vd.port_id]
          = vd.port_id :: rest := by
        unfold HeuristicOptimizer.allowedPortsOf
        rw [hvd]
        simp [hrest]
      refine ⟨HeuristicOptimizer.geneToAssignment hd g vd (vd.port_id :: rest) vd.port_id :: l',
        ?_, ?_⟩
      · unfold HeuristicOptimizer.individualToAssignments
        rw [hvd]
        dsimp only
        rw [hallow]
        dsimp only
        rw [hl']
        rfl
      · intro a ha
        cases ha with
        | head => exact ⟨g, by simp, vd, hvd, rest, hrest, rfl⟩
        | tail _ hmem =>
          obtain ⟨g', hg', vd', hvd', rest', hrest', ha'⟩ := hprop a hmem
          exact ⟨g', by simp [hg'], vd', hvd', rest', hrest', ha'⟩

/-- C6 (amended): the individual conversion of the heuristic stages is
total on individuals whose genes all reference vessels present in the
vessels table (whatever their ports, plants and berth days): it returns a
list of assignments in which an out-of-allowed-set `port_id` has been
repaired to the vessel's primary port, a missing `berth_day` has been
defaulted to the vessel's `eta_day`, and every emitted `port_id` lies in
the vessel's allowed set — while a gene whose `vessel_id` is absent from
the table makes the stage raise a `KeyError` (see the counterexample). -/
theorem heuristic_gene_repair (t : Tables) (hd : String → String → ℚ)
    (ind : List HeuristicOptimizer.Gene)
    (h : ∀ g ∈ ind, (dictLookup (vesselLookup t) g.vesselId).isSome) :
    ∃ l, HeuristicOptimizer.individualToAssignments t hd ind = .ok l ∧
      ∀ a ∈ l, ∃ g ∈ ind, ∃ vd, dictLookup (vesselLookup t) g.vesselId = some vd ∧
        a.vessel_id = g.vesselId ∧
        a.cargo_mt = vd.cargo_mt ∧
        a.port_id ∈ HeuristicOptimizer.parseAllowedPorts t vd ∧
        (g.portId ∉ HeuristicOptimizer.parseAllowedPorts t vd →
          a.port_id = vd.port_id) ∧
        (g.berthDay = none → a.scheduled_day = some vd.eta_day) := by
  obtain ⟨l, hl, hprop⟩ := individualToAssignments_spec t hd ind h
  refine ⟨l, hl, ?_⟩
  intro a ha
  obtain ⟨g, hg, vd, hvd, rest, hrest, haeq⟩ := hprop a ha
  refine ⟨g, hg, vd, hvd, ?_, ?_, ?_, ?_, ?_⟩
  · rw [haeq]; rfl
  · rw [haeq]; rfl
  · rw [haeq, hrest]; exact geneToAssignment_port_mem hd g vd vd.port_id rest
  · intro hnot
    rw [hrest] at hnot
    rw [haeq]
    unfold HeuristicOptimizer.geneToAssignment
    dsimp only
    rw [if_neg hnot]
  · intro hnone
    rw [haeq]
    unfold HeuristicOptimizer.geneToAssignment
    dsimp only
    rw [hnone]
    rfl

theorem heuristic_gene_repair_witness :
    (∀ g ∈ indRepair, (dictLookup (vesselLookup tW) g.vesselId).isSome) ∧
    HeuristicOptimizer.individualToAssignments tW (fun _ _ => 0) indRepair
      = .ok [aW] ∧
    (∃ l, HeuristicOptimizer.individualToAssignments tW (fun _ _ => 0) indRepair
        = .ok l ∧
      ∀ a ∈ l, ∃ g ∈ indRepair, ∃ vd,
        dictLookup (vesselLookup tW) g.vesselId = some vd ∧
        a.vessel_id = g.vesselId ∧
        a.cargo_mt = vd.cargo_mt ∧
        a.port_id ∈ HeuristicOptimizer.parseAllowedPorts tW vd ∧
        (g.portId ∉ HeuristicOptimizer.parseAllowedPorts tW vd →
          a.port_id = vd.port_id) ∧
        (g.berthDay = none → a.scheduled_day = some vd.eta_day)) :=
  ⟨by decide, by rfl, heuristic_gene_repair tW (fun _ _ => 0) indRepair (by decide)⟩

/-- C6 (counterexample): a gene whose `vessel_id` is absent from the
vessels table does not complete — `self.vessel_lookup[vessel_id]` raises a
`KeyError` inside the individual conversion (and hence in both heuristic
stages' cost evaluation), refuting unconditional totality. -/
theorem heuristic_unknown_vessel_cex :
    dictLookup (vesselLookup tW) "GHOST" = none ∧
    HeuristicOptimizer.individualToAssignments tW (fun _ _ => 0)
      [⟨"GHOST", "P1", "PL1", some 3⟩] = .error "KeyError" := by
  exact ⟨by decide, by rfl⟩

/-- A dict lookup succeeds exactly when some pair carries the key. -/
theorem dictLookup_isSome_iff {κ β : Type} [DecidableEq κ]
    (l : List (κ × β)) (k : κ) :
    (dictLookup l k).isSome = true ↔ ∃ p ∈ l, p.1 = k := by
  induction l with
  | nil => simp [dictLookup]
  | cons p rest ih =>
    unfold dictLookup
    cases h : dictLookup rest k with
    | some v =>
      simp only [Option.isSome_some, true_iff]
      obtain ⟨q, hq, hqk⟩ := ih.1 (by rw [h]; rfl)
      exact ⟨q, by simp [hq], hqk⟩
    | none =>
      rw [h] at ih
      by_cases hpk : p.1 = k
      · simp [hpk]
      · simp only [if_neg hpk, Option.isSome_none]
        simp only [Option.isSome_none, Bool.false_eq_true, false_iff] at ih
        simp only [Bool.false_eq_true, false_iff]
        intro ⟨q, hq, hqk⟩
        cases hq with
        | head => exact hpk hqk
        | tail _ hmem => exact ih ⟨q, hmem, hqk⟩

/-- Elements of `aset l k v` either carry the key `k` or come from `l`. -/
theorem mem_aset {κ β : Type} [DecidableEq κ] (l : List (κ × β)) (k : κ) (v : β) :
    ∀ p ∈ aset l k v, p.1 = k ∨ p ∈ l := by
  unfold aset
  split
  · intro p hp
    obtain ⟨q, hq, heq⟩ := List.mem_map.1 hp
    by_cases hq1 : q.1 = k
    · rw [if_pos hq1] at heq
      left
      rw [← heq]
    · rw [if_neg hq1] at heq
      right
      rw [← heq]
      exact hq
  · intro p hp
    cases List.mem_append.1 hp with
    | inl hm => right; exact hm
    | inr hm =>
      left
      rw [List.mem_singleton.1 hm]

/-- Every key of the usage dict comes from some assignment of the list. -/
theorem usageDict_keys (f : Assignment → ℚ) (P : String × ℤ → Prop) :
    ∀ (l : List Assignment) (m : List ((String × ℤ) × ℚ)),
      (∀ e ∈ m, P e.1) → (∀ a ∈ l, P (a.port_id, a.time_period)) →
      ∀ e ∈ l.foldl
        (fun m a =>
          let key := (a.port_id, a.time_period)
          aset m key ((dictLookup m key).getD 0 + f a)) m, P e.1 := by
  intro l
  induction l with
  | nil => intro m hm _ e he; exact hm e he
  | cons a rest ih =>
    intro m hm hl e he
    refine ih _ ?_ (fun a' ha' => hl a' (by simp [ha'])) e he
    intro e' he'
    cases mem_aset _ _ _ e' he' with
    | inl hk => rw [hk]; exact hl a (by simp)
    | inr hm' => exact hm e' hm'

/-- The penalty fold succeeds when every usage key's port is known. -/
theorem penaltyFold_ok (t : Tables) (limit : Port → ℚ) (rate : ℚ) :
    ∀ (entries : List ((String × ℤ) × ℚ)),
      (∀ e ∈ entries, (dictLookup (portLookup t) e.1.1).isSome = true) →
      ∀ acc, ∃ c, HeuristicOptimizer.penaltyFold t limit rate entries acc = .ok c := by
  intro entries
  induction entries with
  | nil => exact fun _ acc => ⟨acc, rfl⟩
  | cons e rest ih =>
    intro h acc
    have he : (dictLookup (portLookup t) e.1.1).isSome = true := h e (by simp)
    cases hl : dictLookup (portLookup t) e.1.1 with
    | none => rw [hl] at he; cases he
    | some pd =>
      obtain ⟨c, hc⟩ := ih (fun e' he' => h e' (by simp [he'])) 
        (if e.2 > limit pd then acc + (e.2 - limit pd) * rate else acc)
      refine ⟨c, ?_⟩
      unfold HeuristicOptimizer.penaltyFold
      rw [hl]
      exact hc

/-- The cost loop succeeds when every assignment's vessel id is known. -/
theorem costLoopGo_ok (t : Tables) :
    ∀ (l : List Assignment),
      (∀ a ∈ l, (dictLookup (vesselLookup t) a.vessel_id).isSome = true) →
      ∀ acc, ∃ c, HeuristicOptimizer.costLoopGo t l acc = .ok c := by
  intro l
  induction l with
  | nil => exact fun _ acc => ⟨acc, rfl⟩
  | cons a rest ih =>
    intro h acc
    have ih' := ih (fun a' ha' => h a' (by simp [ha']))
    unfold HeuristicOptimizer.costLoopGo
    dsimp only
    cases hp : dictLookup (portLookup t) (HeuristicOptimizer.costLoopUpdate t a).port_id with
    | none => exact ih' acc
    | some pi =>
      have ha : (dictLookup (vesselLookup t) a.vessel_id).isSome = true := h a (by simp)
      cases hv : dictLookup (vesselLookup t) a.vessel_id with
      | none => rw [hv] at ha; cases ha
      | some vd => exact ih' _

/-- C7 (amended): the cost model raises a `LookupError` only when a
*vessel* lookup fails, never merely for an unknown port or plant id.
(a) The heuristic refiner's cost function returns a cost whenever every
assignment's vessel id is known and its port id is a known port after the
in-place primary-port repair (unknown plants are priced through the
constant-100 rail fallback); (b) the shared cost calculator returns a cost
whenever every assignment's vessel id is known, whatever port and plant
ids the assignments reference; (c) an assignment whose `port_id` matches
no row of the ports table is skipped outright by the shared calculator
(`continue`), contributing nothing to any cost component. -/
theorem cost_query_totality (t : Tables) (l : List Assignment)
    (hv : ∀ a ∈ l, (dictLookup (vesselLookup t) a.vessel_id).isSome = true)
    (hp : ∀ a ∈ l, (dictLookup (portLookup t)
      (HeuristicOptimizer.costLoopUpdate t a).port_id).isSome = true) :
    (HeuristicOptimizer.calculateTotalCost t l).isOk = true ∧
    (CostCalculator.calculateTotalLogisticsCost t l).isOk = true ∧
    (∀ (a : Assignment) (rest : List Assignment) (ph rt dm : ℚ),
      t.ports.find? (fun p => p.port_id = a.port_id) = none →
      CostCalculator.totalLogisticsGo t (a :: rest) ph rt dm
        = CostCalculator.totalLogisticsGo t rest ph rt dm) := by
  refine ⟨?_, ?_, ?_⟩
  · obtain ⟨c, hc⟩ := costLoopGo_ok t l hv 0
    have hmem : ∀ a ∈ l.map (HeuristicOptimizer.costLoopUpdate t),
        (dictLookup (portLookup t) a.port_id).isSome = true := by
      intro a ha
      obtain ⟨a0, ha0, haeq⟩ := List.mem_map.1 ha
      rw [← haeq]
      exact hp a0 ha0
    have hkeys1 : ∀ e ∈ HeuristicOptimizer.usageDict
        (l.map (HeuristicOptimizer.costLoopUpdate t)) (fun a => a.cargo_mt),
        (dictLookup (portLookup t) e.1.1).isSome = true := by
      intro e he
      exact usageDict_keys (fun a => a.cargo_mt)
        (fun k => (dictLookup (portLookup t) k.1).isSome = true)
        (l.map (HeuristicOptimizer.costLoopUpdate t)) []
        (by simp) hmem e he
    have hkeys2 : ∀ e ∈ HeuristicOptimizer.usageDict
        (l.map (HeuristicOptimizer.costLoopUpdate t)) (fun a => (a.rakes_required : ℚ)),
        (dictLookup (portLookup t) e.1.1).isSome = true := by
      intro e he
      exact usageDict_keys (fun a => (a.rakes_required : ℚ))
        (fun k => (dictLookup (portLookup t) k.1).isSome = true)
        (l.map (HeuristicOptimizer.costLoopUpdate t)) []
        (by simp) hmem e he
    obtain ⟨p1, hp1⟩ := penaltyFold_ok t (fun p => p.daily_capacity_mt) 50 _ hkeys1 0
    obtain ⟨p2, hp2⟩ := penaltyFold_ok t
      (fun p => (p.rakes_available_per_day : ℚ)) 10000 _ hkeys2 0
    unfold HeuristicOptimizer.calculateTotalCost
      HeuristicOptimizer.calculateConstraintPenalties
    simp only [hc, Except.bind, bind, hp1, hp2, pure, Except.pure, Except.isOk,
      Except.toBool]
  · suffices h : ∀ (l' : List Assignment),
        (∀ a ∈ l', (dictLookup (vesselLookup t) a.vessel_id).isSome = true) →
        ∀ ph rt dm, ∃ c, CostCalculator.totalLogisticsGo t l' ph rt dm = .ok c by
      obtain ⟨c, hc⟩ := h l hv 0 0 0
      unfold CostCalculator.calculateTotalLogisticsCost
      simp [hc, Except.isOk, Except.toBool, Except.map]
    intro l'
    induction l' with
    | nil => exact fun _ ph rt dm => ⟨(ph, rt, dm), rfl⟩
    | cons a rest ih =>
      intro h ph rt dm
      have ih' := ih (fun a' ha' => h a' (by simp [ha']))
      unfold CostCalculator.totalLogisticsGo
      cases hfp : t.ports.find? (fun p => p.port_id = a.port_id) with
      | none => exact ih' ph rt dm
      | some pd =>
        dsimp only
        cases hab : a.actual_berth_time with
        | none => exact ih' _ _ _
        | some ab =>
          cases hpb : a.planned_berth_time with
          | none => exact ih' _ _ _
          | some pb =>
            have hsome : (dictLookup (vesselLookup t) a.vessel_id).isSome = true :=
              h a (by simp)
            have : ∃ v ∈ t.vessels, v.vessel_id = a.vessel_id := by
              obtain ⟨p, hpmem, hpk⟩ := (dictLookup_isSome_iff _ _).1 hsome
              obtain ⟨v, hvmem, hveq⟩ := List.mem_map.1 hpmem
              refine ⟨v, hvmem, ?_⟩
              rw [← hpk, ← hveq]
            have hfind : (t.vessels.find? (fun v => v.vessel_id = a.vessel_id)).isSome := by
              rw [List.find?_isSome]
              obtain ⟨v, hvm, hve⟩ := this
              exact ⟨v, hvm, by simp [hve]⟩
            cases hfv : t.vessels.find? (fun v => v.vessel_id = a.vessel_id) with
            | none => rw [hfv] at hfind; cases hfind
            | some vd => exact ih' _ _ _
  · intro a rest ph rt dm hnone
    rw [CostCalculator.totalLogisticsGo, hnone]

theorem cost_query_totality_witness :
    ((∀ a ∈ [aBadPort], (dictLookup (vesselLookup tW) a.vessel_id).isSome = true) ∧
     (∀ a ∈ [aBadPort], (dictLookup (portLookup tW)
       (HeuristicOptimizer.costLoopUpdate tW a).port_id).isSome = true)) ∧
    ((HeuristicOptimizer.calculateTotalCost tW [aBadPort]).isOk = true ∧
     (CostCalculator.calculateTotalLogisticsCost tW [aBadPort]).isOk = true ∧
     (∀ (a : Assignment) (rest : List Assignment) (ph rt dm : ℚ),
       tW.ports.find? (fun p => p.port_id = a.port_id) = none →
       CostCalculator.totalLogisticsGo tW (a :: rest) ph rt dm
         = CostCalculator.totalLogisticsGo tW rest ph rt dm)) :=
  ⟨⟨by decide, by decide⟩, cost_query_totality tW [aBadPort] (by decide) (by decide)⟩

/-- C7 (counterexample to the original claim): queries referencing unknown
port and plant ids do not fail with a `LookupError`.  Plant `NOPE` is
absent from the plants table, yet the heuristic cost function prices it
with the 100/MT rail fallback and returns 11000, and the shared calculator
prices it with the dataset-mean fallback and returns a full component
dict.  Port `PX` is absent from the ports table, yet the shared calculator
silently skips the assignment and returns the zero dict.  (The heuristic
path does raise a `KeyError` in its penalty loop for a port that stays
unknown after the primary-port repair, as `aOrphan` — whose vessel id the
repair cannot resolve — shows; but that is not the across-the-board
`LookupError` the claim asserts.) -/
theorem unknown_id_cost_cex :
    dictLookup (plantLookup tW) "NOPE" = none ∧
    HeuristicOptimizer.calculateTotalCost tW [aUnknownPlant] = .ok 11000 ∧
    CostCalculator.calculateTotalLogisticsCost tW [aUnknownPlant] =
      .ok ⟨1000, 700, 0, 1700⟩ ∧
    dictLookup (portLookup tW) "PX" = none ∧
    CostCalculator.calculateTotalLogisticsCost tW [aBadPort] = .ok ⟨0, 0, 0, 0⟩ ∧
    HeuristicOptimizer.calculateTotalCost tW [aOrphan] = .error "KeyError" :=
  ⟨by decide, by rfl, by rfl, by decide, by rfl, by rfl⟩

theorem cargoSum_nil (vid : String) : cargoSum [] vid = 0 := rfl

theorem cargoSum_cons (a : Assignment) (l : List Assignment) (vid : String) :
    cargoSum (a :: l) vid =
      (if a.vessel_id = vid then a.cargo_mt else 0) + cargoSum l vid := by
  unfold cargoSum
  by_cases h : a.vessel_id = vid
  · simp [List.filter_cons, h]
  · simp [List.filter_cons, h]

theorem cargoSum_zero (l : List Assignment) (vid : String)
    (h : ∀ a ∈ l, a.vessel_id ≠ vid) : cargoSum l vid = 0 := by
  induction l with
  | nil => rfl
  | cons a rest ih =>
    rw [cargoSum_cons, if_neg (h a (by simp)), ih (fun x hx => h x (by simp [hx]))]
    ring

/-- Every FCFS assignment's vessel id comes from the processed list. -/
theorem fcfsGo_vessel_ids (t : Tables) (d : String → ℚ) :
    ∀ (vs : List Vessel) (util : List (String × ℚ)),
      ∀ a ∈ MILPOptimizer.fcfsGo t d vs util, ∃ w ∈ vs, a.vessel_id = w.vessel_id := by
  intro vs
  induction vs with
  | nil => intro util a ha; cases ha
  | cons w ws ih =>
    intro util a ha
    rw [MILPOptimizer.fcfsGo] at ha
    cases hcomp : compatiblePlants t w.cargo_grade with
    | nil =>
      rw [hcomp] at ha
      obtain ⟨w', hw', he⟩ := ih util a ha
      exact ⟨w', by simp [hw'], he⟩
    | cons p ps =>
      rw [hcomp] at ha
      cases ha with
      | head => exact ⟨w, by simp, rfl⟩
      | tail _ hmem =>
        obtain ⟨w', hw', he⟩ := ih _ a hmem
        exact ⟨w', by simp [hw'], he⟩

/-- Cargo conservation of the FCFS loop: a vessel with a grade-compatible
plant receives exactly its own cargo; one without receives nothing. -/
theorem fcfsGo_cargoSum (t : Tables) (d : String → ℚ) :
    ∀ (vs : List Vessel) (util : List (String × ℚ)),
      (vs.map (fun v => v.vessel_id)).Nodup →
      ∀ v ∈ vs,
        cargoSum (MILPOptimizer.fcfsGo t d vs util) v.vessel_id =
          (if compatiblePlants t v.cargo_grade = [] then 0 else v.cargo_mt) := by
  intro vs
  induction vs with
  | nil => intro util _ v hv; cases hv
  | cons w ws ih =>
    intro util hnd v hv
    have hnotin : w.vessel_id ∉ ws.map (fun v => v.vessel_id) :=
      (List.nodup_cons.1 hnd).1
    have hndws : (ws.map (fun v => v.vessel_id)).Nodup :=
      (List.nodup_cons.1 hnd).2
    rw [MILPOptimizer.fcfsGo]
    cases hv with
    | head =>
      have hrest0 : ∀ (u : List (String × ℚ)),
          ∀ a ∈ MILPOptimizer.fcfsGo t d ws u, a.vessel_id ≠ w.vessel_id := by
        intro u a ha heq
        obtain ⟨w', hw', he⟩ := fcfsGo_vessel_ids t d ws u a ha
        apply hnotin
        rw [heq] at he
        exact List.mem_map.2 ⟨w', hw', he.symm⟩
      cases hcomp : compatiblePlants t w.cargo_grade with
      | nil =>
        rw [if_pos rfl]
        exact cargoSum_zero _ _ (hrest0 util)
      | cons p ps =>
        rw [if_neg (by simp)]
        rw [cargoSum_cons, if_pos rfl, cargoSum_zero _ _ (hrest0 _)]
        ring
    | tail _ hmem =>
      have hne : w.vessel_id ≠ v.vessel_id := by
        intro heq
        exact hnotin (heq ▸ List.mem_map.2 ⟨v, hmem, rfl⟩)
      cases hcomp : compatiblePlants t w.cargo_grade with
      | nil => exact ih util hndws v hmem
      | cons p ps =>
        rw [cargoSum_cons, if_neg hne, ih _ hndws v hmem]
        ring

theorem insertByEta_perm (v : Vessel) (l : List Vessel) :
    List.Perm (MILPOptimizer.insertByEta v l) (v :: l) := by
  induction l with
  | nil => exact List.Perm.refl _
  | cons w ws ih =>
    rw [MILPOptimizer.insertByEta]
    split
    · exact List.Perm.refl _
    · exact (ih.cons w).trans (List.Perm.swap v w ws)

theorem sortByEta_perm (l : List Vessel) :
    List.Perm (MILPOptimizer.sortByEta l) l := by
  suffices h : ∀ (l acc : List Vessel),
      List.Perm (l.foldl (fun acc v => MILPOptimizer.insertByEta v acc) acc) (acc ++ l) by
    simpa using h l []
  intro l
  induction l with
  | nil => intro acc; simp
  | cons v vs ih =>
    intro acc
    refine ((ih (MILPOptimizer.insertByEta v acc)).trans ?_)
    exact (((insertByEta_perm v acc).append_right vs).trans List.perm_middle.symm)

/-- With unique vessel ids, the dict lookup of a vessel's own id returns
that vessel's row. -/
theorem dictLookup_vmap_self :
    ∀ (vs : List Vessel), (vs.map (fun v => v.vessel_id)).Nodup →
      ∀ v ∈ vs, dictLookup (vs.map (fun v => (v.vessel_id, v))) v.vessel_id = some v := by
  intro vs
  induction vs with
  | nil => intro _ v hv; cases hv
  | cons w ws ih =>
    intro hnd v hv
    have hnotin : w.vessel_id ∉ ws.map (fun v => v.vessel_id) :=
      (List.nodup_cons.1 hnd).1
    have hndws : (ws.map (fun v => v.vessel_id)).Nodup :=
      (List.nodup_cons.1 hnd).2
    cases hv with
    | head =>
      have hnone : dictLookup (ws.map (fun v => (v.vessel_id, v))) w.vessel_id = none := by
        cases hl : dictLookup (ws.map (fun v => (v.vessel_id, v))) w.vessel_id with
        | none => rfl
        | some x =>
          exfalso
          have : ∃ p ∈ ws.map (fun v => (v.vessel_id, v)), p.1 = w.vessel_id :=
            (dictLookup_isSome_iff _ _).1 (by rw [hl]; rfl)
          obtain ⟨p, hpmem, hpk⟩ := this
          obtain ⟨v', hv', hve⟩ := List.mem_map.1 hpmem
          apply hnotin
          refine List.mem_map.2 ⟨v', hv', ?_⟩
          rw [← hpk, ← hve]
      simp [dictLookup, hnone]
    | tail _ hmem =>
      have := ih hndws v hmem
      simp only [List.map_cons, dictLookup, this]

theorem dictLookup_vesselLookup_self (t : Tables)
    (hnd : (t.vessels.map (fun v => v.vessel_id)).Nodup)
    (v : Vessel) (hv : v ∈ t.vessels) :
    dictLookup (vesselLookup t) v.vessel_id = some v :=
  dictLookup_vmap_self t.vessels hnd v hv

/-- Cargo total of a converted individual: each gene for a vessel id
contributes that vessel row's full `cargo_mt` once. -/
theorem conv_cargoSum (t : Tables) (hd : String → String → ℚ) :
    ∀ (ind : List HeuristicOptimizer.Gene) (vid : String) (vd : Vessel),
      (∀ g ∈ ind, (dictLookup (vesselLookup t) g.vesselId).isSome = true) →
      dictLookup (vesselLookup t) vid = some vd →
      ∃ l, HeuristicOptimizer.individualToAssignments t hd ind = .ok l ∧
        cargoSum l vid =
          (((ind.map (fun g => g.vesselId)).count vid : ℕ) : ℚ) * vd.cargo_mt := by
  intro ind
  induction ind with
  | nil =>
    intro vid vd _ _
    exact ⟨[], rfl, by simp [cargoSum_nil]⟩
  | cons g gs ih =>
    intro vid vd h hvd
    have hg : (dictLookup (vesselLookup t) g.vesselId).isSome = true := h g (by simp)
    cases hvg : dictLookup (vesselLookup t) g.vesselId with
    | none => rw [hvg] at hg; cases hg
    | some vg =>
      obtain ⟨rest, hrest⟩ := parseAllowedPorts_cons t vg
      obtain ⟨l', hl', hsum⟩ := ih vid vd (fun g' hg' => h g' (by simp [hg'])) hvd
      have hallow : (HeuristicOptimizer.allowedPortsOf t g.vesselId).getD [vg.port_id]
          = vg.port_id :: rest := by
        unfold HeuristicOptimizer.allowedPortsOf
        rw [hvg]
        simp [hrest]
      refine ⟨HeuristicOptimizer.geneToAssignment hd g vg (vg.port_id :: rest) vg.port_id :: l',
        ?_, ?_⟩
      · unfold HeuristicOptimizer.individualToAssignments
        rw [hvg]
        dsimp only
        rw [hallow]
        dsimp only
        rw [hl']
        rfl
      · rw [cargoSum_cons]
        have hva : (HeuristicOptimizer.geneToAssignment hd g vg (vg.port_id :: rest)
            vg.port_id).vessel_id = g.vesselId := rfl
        have hca : (HeuristicOptimizer.geneToAssignment hd g vg (vg.port_id :: rest)
            vg.port_id).cargo_mt = vg.cargo_mt := rfl
        by_cases hgv : g.vesselId = vid
        · have hvgd : vg = vd := by
            rw [hgv] at hvg
            rw [hvg] at hvd
            exact Option.some_injective _ hvd
        
          rw [hva, if_pos hgv, hca, hvgd, hsum]
          rw [List.map_cons, List.count_cons]
          simp [hgv]
          ring
        · rw [hva, if_neg hgv, hsum]
          rw [List.map_cons, List.count_cons]
          simp [hgv]

/-- C1 (amended): cargo conservation holds for every vessel that has at
least one grade-compatible plant: the FCFS baseline assigns it exactly its
cargo, and the heuristic stages' conversion of an individual carrying
exactly one gene for it yields assignments summing to its cargo.  A vessel
with no grade-compatible plant is dropped and receives total cargo 0 (see
the counterexample). -/
theorem cargo_conservation_amended (t : Tables) (delays : String → ℚ)
    (hnd : (t.vessels.map (fun v => v.vessel_id)).Nodup)
    (v : Vessel) (hv : v ∈ t.vessels) :
    (compatiblePlants t v.cargo_grade ≠ [] →
      cargoSum (MILPOptimizer.createBaselineAssignments t delays) v.vessel_id
        = v.cargo_mt) ∧
    (compatiblePlants t v.cargo_grade = [] →
      cargoSum (MILPOptimizer.createBaselineAssignments t delays) v.vessel_id
        = 0) ∧
    (∀ (hd : String → String → ℚ) (ind : List HeuristicOptimizer.Gene),
      (∀ g ∈ ind, (dictLookup (vesselLookup t) g.vesselId).isSome = true) →
      (ind.map (fun g => g.vesselId)).count v.vessel_id = 1 →
      ∃ l, HeuristicOptimizer.individualToAssignments t hd ind = .ok l ∧
        cargoSum l v.vessel_id = v.cargo_mt) := by
  have hperm := sortByEta_perm t.vessels
  have hndS : ((MILPOptimizer.sortByEta t.vessels).map (fun v => v.vessel_id)).Nodup := by
    have hpm : List.Perm
        ((MILPOptimizer.sortByEta t.vessels).map (fun v => v.vessel_id))
        (t.vessels.map (fun v => v.vessel_id)) := hperm.map _
    exact hpm.nodup_iff.2 hnd
  have hvS : v ∈ MILPOptimizer.sortByEta t.vessels := hperm.mem_iff.2 hv
  have hmain := fcfsGo_cargoSum t delays (MILPOptimizer.sortByEta t.vessels) [] hndS v hvS
  refine ⟨?_, ?_, ?_⟩
  · intro hne
    unfold MILPOptimizer.createBaselineAssignments
    rw [hmain, if_neg hne]
  · intro heq
    unfold MILPOptimizer.createBaselineAssignments
    rw [hmain, if_pos heq]
  · intro hd ind hknown hcount
    obtain ⟨l, hl, hsum⟩ := conv_cargoSum t hd ind v.vessel_id v hknown
      (dictLookup_vesselLookup_self t hnd v hv)
    refine ⟨l, hl, ?_⟩
    rw [hsum, hcount]
    simp

theorem cargo_conservation_amended_witness :
    compatiblePlants tW vW.cargo_grade ≠ [] ∧
    cargoSum (MILPOptimizer.createBaselineAssignments tW (fun _ => 0)) vW.vessel_id
      = vW.cargo_mt := by
  have h := cargo_conservation_amended tW (fun _ => 0) (by decide) vW (by decide)
  exact ⟨by decide, h.1 (by decide)⟩

/-- C1 (counterexample): vessel `V2` of `tW` (800 MT of grade `RARE`, a
grade no plant accepts) is silently dropped by the FCFS baseline: the sum
of its assignments' cargo is 0, which misses its 800 MT by far more than
the claimed `1e-6` tolerance. -/
theorem cargo_conservation_cex :
    (∃ v ∈ tW.vessels, v.vessel_id = "V2" ∧ v.cargo_mt = 800) ∧
    compatiblePlants tW "RARE" = [] ∧
    cargoSum (MILPOptimizer.createBaselineAssignments tW (fun _ => 0)) "V2" = 0 ∧
    (800 : ℚ) - cargoSum (MILPOptimizer.createBaselineAssignments tW (fun _ => 0)) "V2"
      > 1/1000000 := by decide

theorem getD_mem_of_lt {α : Type} :
    ∀ (l : List α) (i : ℕ) (d : α), i < l.length → l.getD i d ∈ l := by
  intro l
  induction l with
  | nil => intro i d h; cases h
  | cons a rest ih =>
    intro i d h
    cases i with
    | zero => simp [List.getD]
    | succ j =>
      have : j < rest.length := Nat.lt_of_succ_lt_succ h
      simp only [List.getD_cons_succ]
      exact List.mem_cons_of_mem a (ih j d this)

theorem idxmaxDemand_mem :
    ∀ (l : List Plant) (best : Plant), MILPOptimizer.idxmaxDemand best l ∈ best :: l
  | [], best => by simp [MILPOptimizer.idxmaxDemand]
  | p :: ps, best => by
    by_cases hc : p.daily_demand_mt > best.daily_demand_mt
    · have heq : MILPOptimizer.idxmaxDemand best (p :: ps)
          = MILPOptimizer.idxmaxDemand p ps := by
        rw [MILPOptimizer.idxmaxDemand, if_pos hc]
      rw [heq]
      exact List.mem_cons_of_mem best (idxmaxDemand_mem ps p)
    · have heq : MILPOptimizer.idxmaxDemand best (p :: ps)
          = MILPOptimizer.idxmaxDemand best ps := by
        rw [MILPOptimizer.idxmaxDemand, if_neg hc]
      rw [heq]
      rcases List.mem_cons.1 (idxmaxDemand_mem ps best) with h | h
      · rw [h]; exact List.mem_cons_self best (p :: ps)
      · exact List.mem_cons_of_mem best (List.mem_cons_of_mem p h)

/-- Full per-assignment structure of the FCFS loop output: the vessel's own
primary port and a grade-compatible plant. -/
theorem fcfsGo_spec (t : Tables) (d : String → ℚ) :
    ∀ (vs : List Vessel) (util : List (String × ℚ)),
      ∀ a ∈ MILPOptimizer.fcfsGo t d vs util,
        ∃ v ∈ vs, a.vessel_id = v.vessel_id ∧ a.port_id = v.port_id ∧
          ∃ pl ∈ compatiblePlants t v.cargo_grade, a.plant_id = pl.plant_id := by
  intro vs
  induction vs with
  | nil => intro util a ha; cases ha
  | cons w ws ih =>
    intro util a ha
    rw [MILPOptimizer.fcfsGo] at ha
    cases hcomp : compatiblePlants t w.cargo_grade with
    | nil =>
      rw [hcomp] at ha
      obtain ⟨v, hv, hrest⟩ := ih util a ha
      exact ⟨v, by simp [hv], hrest⟩
    | cons p ps =>
      rw [hcomp] at ha
      cases ha with
      | head =>
        refine ⟨w, by simp, rfl, rfl, MILPOptimizer.idxmaxDemand p ps, ?_, rfl⟩
        rw [hcomp]
        exact idxmaxDemand_mem ps p
      | tail _ hmem =>
        obtain ⟨v, hv, hrest⟩ := ih _ a hmem
        exact ⟨v, by simp [hv], hrest⟩

/-- The vessel's primary port is in its allowed list. -/
theorem primary_mem_parseAllowedPorts (t : Tables) (v : Vessel) :
    v.port_id ∈ HeuristicOptimizer.parseAllowedPorts t v := by
  obtain ⟨rest, hrest⟩ := parseAllowedPorts_cons t v
  rw [hrest]
  exact List.mem_cons_self _ _

/-- Genes created by `_create_individual` reference their vessel, an
allowed port and a grade-compatible plant. -/
theorem createIndividual_spec (t : Tables) (o : HeuristicOptimizer.CreateOracle) :
    ∀ g ∈ HeuristicOptimizer.createIndividual t o, ∃ v ∈ t.vessels,
      g.vesselId = v.vessel_id ∧
      g.portId ∈ (HeuristicOptimizer.allowedPortsOf t v.vessel_id).getD [v.port_id] ∧
      ∃ pl ∈ compatiblePlants t v.cargo_grade, g.plantId = pl.plant_id := by
  intro g hg
  unfold HeuristicOptimizer.createIndividual at hg
  obtain ⟨v, hv, hbody⟩ := List.mem_filterMap.1 hg
  refine ⟨v, hv, ?_⟩
  cases hall : (HeuristicOptimizer.allowedPortsOf t v.vessel_id).getD [v.port_id] with
  | nil => rw [hall] at hbody; cases hbody
  | cons p0 restPorts =>
    rw [hall] at hbody
    dsimp only at hbody
    cases hcomp : (compatiblePlants t v.cargo_grade).map (fun p => p.plant_id) with
    | nil => rw [hcomp] at hbody; cases hbody
    | cons c0 cs =>
      rw [hcomp] at hbody
      dsimp only at hbody
      cases hbody
      refine ⟨rfl, ?_, ?_⟩
      · dsimp only
        split
        · refine getD_mem_of_lt _ _ _ ?_
          exact Nat.mod_lt _ (by simp)
        · exact List.mem_cons_self p0 restPorts
      · have hmem : (c0 :: cs).getD (o.plantIdx v.vessel_id % (c0 :: cs).length) c0
            ∈ c0 :: cs :=
          getD_mem_of_lt _ _ _ (Nat.mod_lt _ (by simp))
        have hmem2 : (c0 :: cs).getD (o.plantIdx v.vessel_id % (c0 :: cs).length) c0
            ∈ (compatiblePlants t v.cargo_grade).map (fun p => p.plant_id) := by
          rw [hcomp]; exact hmem
        obtain ⟨pl, hpl, hple⟩ := List.mem_map.1 hmem2
        exact ⟨pl, hpl, hple.symm⟩

/-- Structure of the exact solver's extraction: every kept assignment comes
from a (vessel, port, plant, period) position of the nested loops whose
flow beats the 0.1 MT filter and whose berth value is at least 0.5. -/
theorem extract_mem_inv (t : Tables) (horizon : ℕ) (delays : String → ℚ)
    (x : String → String → String → ℕ → ℚ) (y : String → String → ℕ → ℚ) :
    ∀ a ∈ MILPOptimizer.extractAssignments t horizon delays x y,
      ∃ v ∈ t.vessels, ∃ p ∈ t.ports, ∃ pl ∈ t.plants,
        ∃ tp ∈ MILPOptimizer.timePeriods horizon,
        a.vessel_id = v.vessel_id ∧ a.port_id = p.port_id ∧
        a.plant_id = pl.plant_id ∧
        ¬(x v.vessel_id p.port_id pl.plant_id tp ≤ 1/10) ∧
        ¬(y v.vessel_id p.port_id tp < 1/2) := by
  intro a ha
  unfold MILPOptimizer.extractAssignments at ha
  obtain ⟨vid, hvid, ha⟩ := List.mem_flatMap.1 ha
  obtain ⟨pid, hpid, ha⟩ := List.mem_flatMap.1 ha
  obtain ⟨plid, hplid, ha⟩ := List.mem_flatMap.1 ha
  obtain ⟨tp, htp, hbody⟩ := List.mem_filterMap.1 ha
  obtain ⟨v, hvmem, hveq⟩ := List.mem_map.1 hvid
  obtain ⟨p, hpmem, hpeq⟩ := List.mem_map.1 hpid
  obtain ⟨pl, hplmem, hpleq⟩ := List.mem_map.1 hplid
  refine ⟨v, hvmem, p, hpmem, pl, hplmem, tp, htp, ?_⟩
  dsimp only at hbody
  by_cases h1 : x vid pid plid tp ≤ 1/10
  · rw [if_pos h1] at hbody; cases hbody
  · rw [if_neg h1] at hbody
    by_cases h2 : y vid pid tp < 1/2
    · rw [if_pos h2] at hbody; cases hbody
    · rw [if_neg h2] at hbody
      cases hlook : dictLookup (vesselLookup t) vid with
      | none => rw [hlook] at hbody; cases hbody
      | some vd =>
        rw [hlook] at hbody
        dsimp only at hbody
        cases hbody
        subst hveq
        subst hpeq
        subst hpleq
        exact ⟨rfl, rfl, rfl, h1, h2⟩

/-- C2 (amended): port-set validity holds throughout — the FCFS baseline
and the GA's created genes pick ports from the vessel's allowed set
(primary first) and the individual conversion repairs foreign ports back
into it, and the exact solver only keeps flow through the vessel's
designated (primary) port — while grade validity holds for the baseline's
and the created genes' plant choices.  The exact solver's model itself
carries no grade constraint (see the counterexample). -/
theorem assignment_validity_amended (t : Tables) :
    (∀ (delays : String → ℚ),
      ∀ a ∈ MILPOptimizer.createBaselineAssignments t delays,
        ∃ v ∈ t.vessels, a.vessel_id = v.vessel_id ∧
          a.port_id ∈ HeuristicOptimizer.parseAllowedPorts t v ∧
          ∃ pl ∈ compatiblePlants t v.cargo_grade, a.plant_id = pl.plant_id) ∧
    (∀ (o : HeuristicOptimizer.CreateOracle),
      ∀ g ∈ HeuristicOptimizer.createIndividual t o, ∃ v ∈ t.vessels,
        g.vesselId = v.vessel_id ∧
        g.portId ∈ (HeuristicOptimizer.allowedPortsOf t v.vessel_id).getD [v.port_id] ∧
        ∃ pl ∈ compatiblePlants t v.cargo_grade, g.plantId = pl.plant_id) ∧
    (∀ (hd : String → String → ℚ) (ind : List HeuristicOptimizer.Gene)
        (l : List Assignment),
      (∀ g ∈ ind, (dictLookup (vesselLookup t) g.vesselId).isSome = true) →
      HeuristicOptimizer.individualToAssignments t hd ind = .ok l →
      ∀ a ∈ l, ∃ vd, dictLookup (vesselLookup t) a.vessel_id = some vd ∧
        a.port_id ∈ HeuristicOptimizer.parseAllowedPorts t vd) ∧
    (∀ (horizon : ℕ) (delays : String → ℚ) (sol : MILPOptimizer.MilpSol),
      MILPOptimizer.milpFeasible t horizon delays sol →
      ∀ a ∈ MILPOptimizer.extractAssignments t horizon delays sol.x sol.y,
        ∃ vd, dictLookup (vesselLookup t) a.vessel_id = some vd ∧
          a.port_id = vd.port_id ∧
          a.port_id ∈ HeuristicOptimizer.parseAllowedPorts t vd) := by
  refine ⟨?_, ?_, ?_, ?_⟩
  · intro delays a ha
    obtain ⟨v, hv, hid, hport, hpl⟩ :=
      fcfsGo_spec t delays (MILPOptimizer.sortByEta t.vessels) [] a ha
    refine ⟨v, (sortByEta_perm t.vessels).mem_iff.1 hv, hid, ?_, hpl⟩
    rw [hport]
    exact primary_mem_parseAllowedPorts t v
  · exact createIndividual_spec t
  · intro hd ind l hknown hconv a ha
    obtain ⟨l', hl', hprop⟩ := individualToAssignments_spec t hd ind hknown
    rw [hconv] at hl'
    cases hl'
    obtain ⟨g, hg, vd, hvd, rest, hrest, haeq⟩ := hprop a ha
    refine ⟨vd, ?_, ?_⟩
    · rw [haeq]
      show dictLookup (vesselLookup t) g.vesselId = some vd
      exact hvd
    · rw [haeq, hrest]
      exact geneToAssignment_port_mem hd g vd vd.port_id rest
  · intro horizon delays sol hfeas a ha
    obtain ⟨v, hvmem, p, hpmem, pl, hplmem, tp, htp, hid, hport, hplid, hx, hy⟩ :=
      extract_mem_inv t horizon delays sol.x sol.y a ha
    obtain ⟨hx0, hybin, hz, hd0, h1, h2, h3, h4, h5, h5b, h6, h7, h8, h10⟩ := hfeas
    have hvl : (dictLookup (vesselLookup t) v.vessel_id).isSome = true := by
      rw [dictLookup_isSome_iff]
      exact ⟨(v.vessel_id, v), List.mem_map.2 ⟨v, hvmem, rfl⟩, rfl⟩
    cases hlook : dictLookup (vesselLookup t) v.vessel_id with
    | none => rw [hlook] at hvl; cases hvl
    | some vd =>
      have hrow : MILPOptimizer.vesselRowOf t v = vd := by
        unfold MILPOptimizer.vesselRowOf
        rw [hlook]
        rfl
      have hporteq : p.port_id = vd.port_id := by
        by_contra hne
        have := h5b v hvmem p hpmem (by rw [hrow]; exact hne) pl hplmem tp htp
        rw [this] at hx
        exact hx (by norm_num)
      refine ⟨vd, ?_, ?_, ?_⟩
      · rw [hid]; exact hlook
      · rw [hport]; exact hporteq
      · rw [hport, hporteq]
        exact primary_mem_parseAllowedPorts t vd

/-- C2 (counterexample): the exact solver's model has no grade constraint —
on `tG` the exhibited point satisfies every constraint of
`build_milp_model`, yet its extracted Solution assigns vessel `V1` (grade
`IRON`) to plant `PL1` whose `quality_requirements` is `COAL`. -/
theorem milp_cross_grade_cex :
    MILPOptimizer.milpFeasible tG 1 (fun _ => 0) solG ∧
    ∃ a ∈ MILPOptimizer.extractAssignments tG 1 (fun _ => 0) solG.x solG.y,
      (dictLookup (plantLookup tG) a.plant_id).map
          (fun pl => pl.quality_requirements) = some "COAL" ∧
      (dictLookup (vesselLookup tG) a.vessel_id).map
          (fun vd => vd.cargo_grade) = some "IRON" ∧
      ("COAL" : String) ≠ "IRON" := by
  constructor
  · unfold MILPOptimizer.milpFeasible
    decide
  · decide

theorem assignment_validity_witness :
    (∃ a ∈ MILPOptimizer.createBaselineAssignments tW (fun _ => 0),
      ∃ v ∈ tW.vessels, a.vessel_id = v.vessel_id ∧
        a.port_id ∈ HeuristicOptimizer.parseAllowedPorts tW v ∧
        ∃ pl ∈ compatiblePlants tW v.cargo_grade, a.plant_id = pl.plant_id) ∧
    (∀ a ∈ MILPOptimizer.createBaselineAssignments tW (fun _ => 0),
      ∃ v ∈ tW.vessels, a.vessel_id = v.vessel_id ∧
        a.port_id ∈ HeuristicOptimizer.parseAllowedPorts tW v ∧
        ∃ pl ∈ compatiblePlants tW v.cargo_grade, a.plant_id = pl.plant_id) :=
  ⟨⟨aW, by decide, (assignment_validity_amended tW).1 (fun _ => 0) aW (by decide)⟩,
    (assignment_validity_amended tW).1 (fun _ => 0)⟩

theorem map_aupd_eq {κ β γ : Type} [DecidableEq κ] (l : List (κ × β)) (k : κ)
    (f : β → β) (g : κ × β → γ)
    (h : ∀ p : κ × β, p.1 = k → g (p.1, f p.2) = g p) :
    (aupd l k f).map g = l.map g := by
  unfold aupd
  rw [List.map_map]
  apply List.map_congr_left
  intro p _
  by_cases hpk : p.1 = k
  · simp only [Function.comp_apply, if_pos hpk]
    exact h p hpk
  · simp only [Function.comp_apply, if_neg hpk]

theorem dictLookup_map_of_nodup {κ β γ : Type} [DecidableEq κ] :
    ∀ (l : List (κ × β)) (g : κ × β → γ), (l.map (fun p => p.1)).Nodup →
      ∀ e ∈ l, dictLookup (l.map (fun p => (p.1, g p))) e.1 = some (g e) := by
  intro l
  induction l with
  | nil => intro g _ e he; cases he
  | cons p rest ih =>
    intro g hnd e he
    have hnotin : p.1 ∉ rest.map (fun q => q.1) := (List.nodup_cons.1 hnd).1
    have hndr := (List.nodup_cons.1 hnd).2
    cases he with
    | head =>
      have hnone : dictLookup (rest.map (fun q => (q.1, g q))) p.1 = none := by
        cases hl : dictLookup (rest.map (fun q => (q.1, g q))) p.1 with
        | none => rfl
        | some x =>
          exfalso
          obtain ⟨q, hqm, hqk⟩ := (dictLookup_isSome_iff _ _).1 (by rw [hl]; rfl)
          obtain ⟨q', hq', hqe⟩ := List.mem_map.1 hqm
          apply hnotin
          refine List.mem_map.2 ⟨q', hq', ?_⟩
          rw [← hqk, ← hqe]
      simp [dictLookup, hnone]
    | tail _ hmem =>
      have := ih g hndr e hmem
      simp only [List.map_cons, dictLookup, this]

/-- The aged/reset/consumed port updates leave capacity and handled volume
alone, so the projection is invariant under them. -/
theorem consumePortInventory_proj (ports : List (String × LogisticsSimulator.PortState))
    (pid : String) (req : ℚ) (grade : Option String) :
    ((LogisticsSimulator.consumePortInventory ports pid req grade).1).map portCapHandled
      = ports.map portCapHandled := by
  unfold LogisticsSimulator.consumePortInventory
  split
  · rfl
  · cases hl : dictLookup ports pid with
    | none => rfl
    | some ps =>
      dsimp only
      exact map_aupd_eq _ _ _ _ (fun p _ => rfl)

theorem arrivalsGo_proj (tstep : ℤ) :
    ∀ (vl : List (String × LogisticsSimulator.VesselState))
      (ports : List (String × LogisticsSimulator.PortState)) r,
      LogisticsSimulator.arrivalsGo tstep vl ports = .ok r →
      r.2.map portCapHandled = ports.map portCapHandled := by
  intro vl
  induction vl with
  | nil =>
    intro ports r h
    cases h
    rfl
  | cons e rest ih =>
    intro ports r h
    rw [LogisticsSimulator.arrivalsGo] at h
    split at h
    · cases hl : dictLookup ports e.2.port_id with
      | none => rw [hl] at h; cases h
      | some ps =>
        rw [hl] at h
        dsimp only at h
        cases hrec : LogisticsSimulator.arrivalsGo tstep rest
            (aupd ports e.2.port_id
              (fun ps => { ps with vessels_queue := ps.vessels_queue ++ [e.1] })) with
        | error er => rw [hrec] at h; cases h
        | ok r' =>
          rw [hrec] at h
          simp only [Except.map] at h
          cases h
          have := ih _ r' hrec
          dsimp only
          rw [this]
          exact map_aupd_eq _ _ _ _ (fun p _ => rfl)
    · cases hrec : LogisticsSimulator.arrivalsGo tstep rest ports with
      | error er => rw [hrec] at h; cases h
      | ok r' =>
        rw [hrec] at h
        simp only [Except.map] at h
        cases h
        exact ih _ r' hrec

/-- The rake-loading loop never touches port capacities, handled volumes,
or the port-handling cost component. -/
theorem assignLoop_projPH (t : Tables) (sh : ℕ) (ts : ℤ) (vid : String)
    (i : ℕ) (grade : Option String) :
    ∀ (rakes : List String) (s : LogisticsSimulator.SimState),
      portsProj (LogisticsSimulator.assignLoop t sh ts vid i grade rakes s)
        = portsProj s ∧
      (LogisticsSimulator.assignLoop t sh ts vid i grade rakes s).cost_port_handling
        = s.cost_port_handling := by
  intro rakes
  induction rakes with
  | nil => intro s; exact ⟨rfl, rfl⟩
  | cons rid rest ih =>
    intro s
    rw [LogisticsSimulator.assignLoop]
    cases hv : dictLookup s.vessels vid with
    | none => exact ⟨rfl, rfl⟩
    | some vs =>
      dsimp only
      cases ha : vs.assignments.get? i with
      | none => exact ⟨rfl, rfl⟩
      | some ast =>
        dsimp only
        split
        · exact ⟨rfl, rfl⟩
        · cases hp : dictLookup s.ports vs.port_id with
          | none => exact ⟨rfl, rfl⟩
          | some ps =>
            dsimp only
            split
            · exact ⟨rfl, rfl⟩
            · split
              · exact ⟨rfl, rfl⟩
              · split
                · constructor
                  · show portsProj _ = portsProj s
                    unfold portsProj
                    exact consumePortInventory_proj s.ports vs.port_id _ grade
                  · rfl
                · refine ⟨(ih _).1.trans ?_, (ih _).2.trans ?_⟩
                  · show portsProj _ = portsProj s
                    unfold portsProj
                    dsimp only
                    rw [map_aupd_eq _ _ _ _ (fun p _ => rfl)]
                    exact consumePortInventory_proj s.ports vs.port_id _ grade
                  · rfl

theorem assignRakesToVessel_projPH (t : Tables) (sh : ℕ) (ts : ℤ) (vid : String)
    (i : ℕ) (s : LogisticsSimulator.SimState) :
    portsProj (LogisticsSimulator.assignRakesToVessel t sh ts vid i s) = portsProj s ∧
    (LogisticsSimulator.assignRakesToVessel t sh ts vid i s).cost_port_handling
      = s.cost_port_handling := by
  unfold LogisticsSimulator.assignRakesToVessel
  cases hv : dictLookup s.vessels vid with
  | none => exact ⟨rfl, rfl⟩
  | some vs =>
    dsimp only
    cases hp : dictLookup s.ports vs.port_id with
    | none => exact ⟨rfl, rfl⟩
    | some ps =>
      dsimp only
      split
      · exact ⟨rfl, rfl⟩
      · exact assignLoop_projPH t sh ts vid i _ _ s

theorem vesselAssignsLoop_projPH (t : Tables) (sh : ℕ) (ts : ℤ) (vid : String) :
    ∀ (fuel i : ℕ) (s : LogisticsSimulator.SimState),
      portsProj (LogisticsSimulator.vesselAssignsLoop t sh ts vid fuel i s)
        = portsProj s ∧
      (LogisticsSimulator.vesselAssignsLoop t sh ts vid fuel i s).cost_port_handling
        = s.cost_port_handling := by
  intro fuel
  induction fuel with
  | zero => intro i s; exact ⟨rfl, rfl⟩
  | succ n ih =>
    intro i s
    rw [LogisticsSimulator.vesselAssignsLoop]
    cases hv : dictLookup s.vessels vid with
    | none => exact ⟨rfl, rfl⟩
    | some vs =>
      dsimp only
      cases ha : vs.assignments.get? i with
      | none => exact ⟨rfl, rfl⟩
      | some ast =>
        dsimp only
        split
        · exact ih (i + 1) s
        · have hstep := assignRakesToVessel_projPH t sh ts vid i s
          cases hv1 : dictLookup (LogisticsSimulator.assignRakesToVessel t sh ts vid i s).vessels vid with
          | none => exact hstep
          | some vs1 =>
            dsimp only
            cases hp1 : dictLookup (LogisticsSimulator.assignRakesToVessel t sh ts vid i s).ports vs1.port_id with
            | none => exact hstep
            | some ps1 =>
              dsimp only
              split
              · exact hstep
              · have hrec := ih (i + 1) (LogisticsSimulator.assignRakesToVessel t sh ts vid i s)
                exact ⟨hrec.1.trans hstep.1, hrec.2.trans hstep.2⟩

theorem processVesselRakes_projPH (t : Tables) (sh : ℕ) (ts : ℤ) (vid : String)
    (s : LogisticsSimulator.SimState) :
    portsProj (LogisticsSimulator.processVesselRakes t sh ts vid s) = portsProj s ∧
    (LogisticsSimulator.processVesselRakes t sh ts vid s).cost_port_handling
      = s.cost_port_handling := by
  unfold LogisticsSimulator.processVesselRakes
  cases hv : dictLookup s.vessels vid with
  | none => exact ⟨rfl, rfl⟩
  | some vs =>
    dsimp only
    split
    · exact ⟨rfl, rfl⟩
    · cases hp : dictLookup s.ports vs.port_id with
      | none => exact ⟨rfl, rfl⟩
      | some ps =>
        dsimp only
        split
        · exact ⟨rfl, rfl⟩
        · split
          · exact ⟨rfl, rfl⟩
          · exact vesselAssignsLoop_projPH t sh ts vid _ 0 s

theorem rakeAssignPhase_projPH (t : Tables) (sh : ℕ) (ts : ℤ) :
    ∀ (vids : List String) (s : LogisticsSimulator.SimState),
      portsProj (LogisticsSimulator.rakeAssignPhase t sh ts vids s) = portsProj s ∧
      (LogisticsSimulator.rakeAssignPhase t sh ts vids s).cost_port_handling
        = s.cost_port_handling := by
  intro vids
  induction vids with
  | nil => intro s; exact ⟨rfl, rfl⟩
  | cons vid rest ih =>
    intro s
    rw [LogisticsSimulator.rakeAssignPhase]
    have h1 := processVesselRakes_projPH t sh ts vid s
    have h2 := ih (LogisticsSimulator.processVesselRakes t sh ts vid s)
    exact ⟨h2.1.trans h1.1, h2.2.trans h1.2⟩

theorem processRakeOperations_projPH (t : Tables) (sh : ℕ) (ts : ℤ)
    (s : LogisticsSimulator.SimState) :
    portsProj (LogisticsSimulator.processRakeOperations t sh ts s) = portsProj s ∧
    (LogisticsSimulator.processRakeOperations t sh ts s).cost_port_handling
      = s.cost_port_handling := by
  unfold LogisticsSimulator.processRakeOperations
  dsimp only
  have h1 := rakeAssignPhase_projPH t sh ts (s.vessels.map (fun e => e.1)) s
  exact ⟨h1.1, h1.2⟩

/-- Effect of the discharge phase on one port: capacity unchanged, handled
volume up by some `d ≥ 0` with matching port-handling cost `d × rate`, and
`d = 0` whenever the port's per-step factor is zero. -/
theorem dischargePhase_spec (t : Tables) (factors : List (String × ℚ)) (ts : ℤ)
    (pid : String) (ps : LogisticsSimulator.PortState)
    (acc : LogisticsSimulator.BerthAcc) :
    ∃ d : ℚ, 0 ≤ d ∧
      (LogisticsSimulator.dischargePhase t factors ts pid ps acc).1.total_handled
        = ps.total_handled + d ∧
      (LogisticsSimulator.dischargePhase t factors ts pid ps acc).1.daily_capacity
        = ps.daily_capacity ∧
      (LogisticsSimulator.dischargePhase t factors ts pid ps acc).2.costPH
        = acc.costPH + d * LogisticsSimulator.handlingRateOf t pid ∧
      (dictLookup factors pid = some 0 → d = 0) := by
  unfold LogisticsSimulator.dischargePhase
  cases hc : ps.current_vessel with
  | none =>
    exact ⟨0, le_refl 0, by ring, rfl, by ring, fun _ => rfl⟩
  | some vid =>
    dsimp only
    cases hv : dictLookup acc.vessels vid with
    | none =>
      exact ⟨0, le_refl 0, by ring, rfl, by ring, fun _ => rfl⟩
    | some vs =>
      dsimp only
      by_cases hd : 0 < min vs.cargo_remaining
          (min ((dictLookup factors pid).getD vs.cargo_remaining)
            ps.throughput_remaining)
      · rw [if_pos hd]
        dsimp only
        refine ⟨min vs.cargo_remaining
          (min ((dictLookup factors pid).getD vs.cargo_remaining)
            ps.throughput_remaining), le_of_lt hd, ?_, ?_, ?_, ?_⟩
        · split <;> rfl
        · split <;> rfl
        · split <;> rfl
        · intro hf
          exfalso
          rw [hf] at hd
          simp only [Option.getD_some, lt_min_iff] at hd
          exact absurd hd.2.1 (lt_irrefl 0)
      · rw [if_neg hd]
        dsimp only
        refine ⟨0, le_refl 0, ?_, ?_, ?_, fun _ => rfl⟩
        · split <;> ring
        · split <;> rfl
        · split <;> ring

/-- The berthing phase never changes handled volume, capacity, or the
port-handling cost. -/
theorem berthPhase_preserve (t : Tables) (sh : ℕ) (ts : ℤ)
    (pa : LogisticsSimulator.PortState × LogisticsSimulator.BerthAcc) :
    (LogisticsSimulator.berthPhase t sh ts pa).1.total_handled = pa.1.total_handled ∧
    (LogisticsSimulator.berthPhase t sh ts pa).1.daily_capacity = pa.1.daily_capacity ∧
    (LogisticsSimulator.berthPhase t sh ts pa).2.costPH = pa.2.costPH := by
  unfold LogisticsSimulator.berthPhase
  dsimp only
  split
  · split
    · exact ⟨rfl, rfl, rfl⟩
    · split
      · exact ⟨rfl, rfl, rfl⟩
      · exact ⟨rfl, rfl, rfl⟩
  · exact ⟨rfl, rfl, rfl⟩

theorem processPortBerth_spec (t : Tables) (sh : ℕ) (factors : List (String × ℚ))
    (ts : ℤ) (pid : String) (ps : LogisticsSimulator.PortState)
    (acc : LogisticsSimulator.BerthAcc) :
    ∃ d : ℚ, 0 ≤ d ∧
      (LogisticsSimulator.processPortBerth t sh factors ts pid ps acc).1.total_handled
        = ps.total_handled + d ∧
      (LogisticsSimulator.processPortBerth t sh factors ts pid ps acc).1.daily_capacity
        = ps.daily_capacity ∧
      (LogisticsSimulator.processPortBerth t sh factors ts pid ps acc).2.costPH
        = acc.costPH + d * LogisticsSimulator.handlingRateOf t pid ∧
      (dictLookup factors pid = some 0 → d = 0) := by
  obtain ⟨d, hd0, hh, hcap, hph, hz⟩ := dischargePhase_spec t factors ts pid ps acc
  have hb := berthPhase_preserve t sh ts
    (LogisticsSimulator.dischargePhase t factors ts pid ps acc)
  exact ⟨d, hd0, hb.1.trans hh, hb.2.1.trans hcap, hb.2.2.trans hph, hz⟩

/-- The berth pass keeps port keys and capacities (in order). -/
theorem berthOpsGo_capkeys (t : Tables) (sh : ℕ) (factors : List (String × ℚ))
    (ts : ℤ) :
    ∀ (entries : List (String × LogisticsSimulator.PortState))
      (acc : LogisticsSimulator.BerthAcc),
      (LogisticsSimulator.berthOpsGo t sh factors ts entries acc).1.map
        (fun e => (e.1, e.2.daily_capacity))
      = entries.map (fun e => (e.1, e.2.daily_capacity)) := by
  intro entries
  induction entries with
  | nil => intro acc; rfl
  | cons e rest ih =>
    intro acc
    rw [LogisticsSimulator.berthOpsGo]
    obtain ⟨d, _, _, hcap, _, _⟩ := processPortBerth_spec t sh factors ts e.1 e.2 acc
    simp only [List.map_cons, hcap, ih]

/-- The berth pass keeps a zero-capacity port's handled volume at zero. -/
theorem berthOpsGo_zerocap (t : Tables) (sh : ℕ) (factors : List (String × ℚ))
    (ts : ℤ) :
    ∀ (entries : List (String × LogisticsSimulator.PortState))
      (acc : LogisticsSimulator.BerthAcc),
      (∀ e ∈ entries, e.2.daily_capacity = 0 → dictLookup factors e.1 = some 0) →
      (∀ e ∈ entries, e.2.daily_capacity = 0 → e.2.total_handled = 0) →
      ∀ e' ∈ (LogisticsSimulator.berthOpsGo t sh factors ts entries acc).1,
        e'.2.daily_capacity = 0 → e'.2.total_handled = 0 := by
  intro entries
  induction entries with
  | nil => intro acc _ _ e' he'; cases he'
  | cons e rest ih =>
    intro acc hfact hz e' he' hcap'
    rw [LogisticsSimulator.berthOpsGo] at he'
    obtain ⟨d, hd0, hh, hcap, hph, hdz⟩ := processPortBerth_spec t sh factors ts e.1 e.2 acc
    cases he' with
    | head =>
      rw [hh]
      have hcap0 : e.2.daily_capacity = 0 := by rw [← hcap]; exact hcap'
      rw [hz e (by simp) hcap0, hdz (hfact e (by simp) hcap0)]
      ring
    | tail _ hmem =>
      exact ih _ (fun e2 h2 => hfact e2 (by simp [h2]))
        (fun e2 h2 => hz e2 (by simp [h2])) e' hmem hcap'

/-- The berth pass preserves the cost decomposition
`costPH = C + Σ rate × handled` over the processed entries. -/
theorem berthOpsGo_cost (t : Tables) (sh : ℕ) (factors : List (String × ℚ))
    (ts : ℤ) :
    ∀ (entries : List (String × LogisticsSimulator.PortState))
      (acc : LogisticsSimulator.BerthAcc) (C : ℚ),
      acc.costPH = C + ((entries.map (fun e =>
        LogisticsSimulator.handlingRateOf t e.1 * e.2.total_handled)).sum) →
      (LogisticsSimulator.berthOpsGo t sh factors ts entries acc).2.costPH =
        C + (((LogisticsSimulator.berthOpsGo t sh factors ts entries acc).1.map
          (fun e => LogisticsSimulator.handlingRateOf t e.1 * e.2.total_handled)).sum) := by
  intro entries
  induction entries with
  | nil =>
    intro acc C h
    rw [LogisticsSimulator.berthOpsGo]
    simpa using h
  | cons e rest ih =>
    intro acc C h
    rw [LogisticsSimulator.berthOpsGo]
    obtain ⟨d, hd0, hh, hcap, hph, hdz⟩ := processPortBerth_spec t sh factors ts e.1 e.2 acc
    dsimp only
    rw [List.map_cons, List.sum_cons]
    have hacc' : (LogisticsSimulator.processPortBerth t sh factors ts e.1 e.2 acc).2.costPH
        = (C + LogisticsSimulator.handlingRateOf t e.1 *
            (LogisticsSimulator.processPortBerth t sh factors ts e.1 e.2 acc).1.total_handled)
          + ((rest.map (fun e =>
            LogisticsSimulator.handlingRateOf t e.1 * e.2.total_handled)).sum) := by
      rw [hph, hh, h]
      rw [List.map_cons, List.sum_cons]
      ring
    have := ih (LogisticsSimulator.processPortBerth t sh factors ts e.1 e.2 acc).2
      (C + LogisticsSimulator.handlingRateOf t e.1 *
        (LogisticsSimulator.processPortBerth t sh factors ts e.1 e.2 acc).1.total_handled)
      hacc'
    rw [this]
    ring

/-- Keys survive the key-capacity-handled projection. -/
theorem projKeys (l : List (String × LogisticsSimulator.PortState)) :
    (l.map portCapHandled).map (fun x => x.1) = l.map (fun e => e.1) := by
  rw [List.map_map]
  exact List.map_congr_left (fun e _ => rfl)

/-- The handling-cost sum survives the projection. -/
theorem projSum (t : Tables) (l : List (String × LogisticsSimulator.PortState)) :
    ((l.map portCapHandled).map
      (fun x => LogisticsSimulator.handlingRateOf t x.1 * x.2.2)).sum
    = (l.map (fun e =>
        LogisticsSimulator.handlingRateOf t e.1 * e.2.total_handled)).sum := by
  rw [List.map_map]
  exact congrArg List.sum (List.map_congr_left (fun e _ => rfl))

/-- The zero-capacity condition transfers back from the projection. -/
theorem projZero (l : List (String × LogisticsSimulator.PortState))
    (h : ∀ x ∈ l.map portCapHandled, x.2.1 = 0 → x.2.2 = 0) :
    ∀ e ∈ l, e.2.daily_capacity = 0 → e.2.total_handled = 0 := by
  intro e he hcap
  exact h (portCapHandled e) (List.mem_map_of_mem _ he) hcap

/-- `SimInv` only depends on the port projection and the handling-cost
component, so it transfers along any state change preserving those. -/
theorem SimInv_of_projPH (t : Tables) (s s' : LogisticsSimulator.SimState)
    (hp : portsProj s' = portsProj s)
    (hc : s'.cost_port_handling = s.cost_port_handling)
    (h : SimInv t s) : SimInv t s' := by
  obtain ⟨h1, h2, h3⟩ := h
  have hp' : s'.ports.map portCapHandled = s.ports.map portCapHandled := hp
  refine ⟨?_, ?_, ?_⟩
  · rw [← projKeys, hp', projKeys]
    exact h1
  · apply projZero
    intro x hx
    rw [hp'] at hx
    obtain ⟨e, he, hex⟩ := List.mem_map.1 hx
    intro hcap
    rw [← hex] at hcap ⊢
    exact h2 e he hcap
  · rw [hc, h3, ← projSum t s.ports, ← hp', projSum]

theorem resetDailyLimits_proj (s : LogisticsSimulator.SimState) (day : ℤ) :
    portsProj (LogisticsSimulator.resetDailyLimits s day) = portsProj s ∧
    (LogisticsSimulator.resetDailyLimits s day).cost_port_handling
      = s.cost_port_handling := by
  constructor
  · unfold portsProj LogisticsSimulator.resetDailyLimits
    dsimp only
    rw [List.map_map]
    exact List.map_congr_left (fun e _ => rfl)
  · rfl

theorem agePortInventories_proj (s : LogisticsSimulator.SimState) :
    portsProj (LogisticsSimulator.agePortInventories s) = portsProj s ∧
    (LogisticsSimulator.agePortInventories s).cost_port_handling
      = s.cost_port_handling := by
  constructor
  · unfold portsProj LogisticsSimulator.agePortInventories
    dsimp only
    rw [List.map_map]
    exact List.map_congr_left (fun e _ => rfl)
  · rfl

/-- Split an `Except` bind that succeeded. -/
theorem except_bind_ok {α β : Type} (x : Except String α) (f : α → Except String β)
    (b : β) (h : x.bind f = .ok b) : ∃ a, x = .ok a ∧ f a = .ok b := by
  cases x with
  | error e => cases h
  | ok a => exact ⟨a, rfl, h⟩

theorem processVesselArrivals_inv (t : Tables) (ts : ℤ)
    (s s' : LogisticsSimulator.SimState)
    (h : LogisticsSimulator.processVesselArrivals ts s = .ok s')
    (hinv : SimInv t s) : SimInv t s' := by
  unfold LogisticsSimulator.processVesselArrivals at h
  cases hag : LogisticsSimulator.arrivalsGo ts s.vessels s.ports with
  | error e => rw [hag] at h; cases h
  | ok r =>
    rw [hag] at h
    simp only [Except.map] at h
    cases h
    refine SimInv_of_projPH t s _ ?_ ?_ hinv
    · show r.2.map portCapHandled = portsProj s
      exact arrivalsGo_proj ts s.vessels s.ports r hag
    · rfl

theorem processBerthOperations_inv (t : Tables) (sh : ℕ) (ts : ℤ)
    (s : LogisticsSimulator.SimState) (h : SimInv t s) :
    SimInv t (LogisticsSimulator.processBerthOperations t sh ts s) := by
  obtain ⟨hnd, hz, hc⟩ := h
  have hfact : ∀ e ∈ s.ports, e.2.daily_capacity = 0 →
      dictLookup (LogisticsSimulator.perStepFactors s.ports (24 / sh)) e.1 = some 0 := by
    intro e he hcap
    have hf := dictLookup_map_of_nodup s.ports
      (fun p => LogisticsSimulator.perStepFactor (24 / sh) p.2) hnd e he
    have hzero : LogisticsSimulator.perStepFactor (24 / sh) e.2 = 0 := by
      unfold LogisticsSimulator.perStepFactor
      rw [hcap]
      split
      · rfl
      · exact zero_div _
    have hgoal : dictLookup (LogisticsSimulator.perStepFactors s.ports (24 / sh)) e.1
        = some (LogisticsSimulator.perStepFactor (24 / sh) e.2) := hf
    rw [hzero] at hgoal
    exact hgoal
  have hkeys : (LogisticsSimulator.berthOpsGo t sh
      (LogisticsSimulator.perStepFactors s.ports (24 / sh)) ts s.ports
      ⟨s.vessels, s.cost_port_handling, s.cost_demurrage⟩).1.map (fun e => e.1)
      = s.ports.map (fun e => e.1) := by
    have h2 := congrArg (List.map (fun x : String × ℚ => x.1))
      (berthOpsGo_capkeys t sh (LogisticsSimulator.perStepFactors s.ports (24 / sh))
        ts s.ports ⟨s.vessels, s.cost_port_handling, s.cost_demurrage⟩)
    rw [List.map_map, List.map_map] at h2
    exact h2
  refine ⟨?_, ?_, ?_⟩
  · show ((LogisticsSimulator.berthOpsGo t sh
      (LogisticsSimulator.perStepFactors s.ports (24 / sh)) ts s.ports
      ⟨s.vessels, s.cost_port_handling, s.cost_demurrage⟩).1.map (fun e => e.1)).Nodup
    rw [hkeys]
    exact hnd
  · show ∀ e ∈ (LogisticsSimulator.berthOpsGo t sh
      (LogisticsSimulator.perStepFactors s.ports (24 / sh)) ts s.ports
      ⟨s.vessels, s.cost_port_handling, s.cost_demurrage⟩).1,
      e.2.daily_capacity = 0 → e.2.total_handled = 0
    exact berthOpsGo_zerocap t sh _ ts s.ports _ hfact hz
  · show (LogisticsSimulator.berthOpsGo t sh
      (LogisticsSimulator.perStepFactors s.ports (24 / sh)) ts s.ports
      ⟨s.vessels, s.cost_port_handling, s.cost_demurrage⟩).2.costPH
      = (((LogisticsSimulator.berthOpsGo t sh
        (LogisticsSimulator.perStepFactors s.ports (24 / sh)) ts s.ports
        ⟨s.vessels, s.cost_port_handling, s.cost_demurrage⟩).1.map (fun e =>
          LogisticsSimulator.handlingRateOf t e.1 * e.2.total_handled)).sum)
    have hcost := berthOpsGo_cost t sh
      (LogisticsSimulator.perStepFactors s.ports (24 / sh)) ts s.ports
      ⟨s.vessels, s.cost_port_handling, s.cost_demurrage⟩ 0 (by rw [zero_add]; exact hc)
    rw [hcost, zero_add]

theorem processRakeOperations_inv (t : Tables) (sh : ℕ) (ts : ℤ)
    (s : LogisticsSimulator.SimState) (h : SimInv t s) :
    SimInv t (LogisticsSimulator.processRakeOperations t sh ts s) := by
  have hp := processRakeOperations_projPH t sh ts s
  exact SimInv_of_projPH t s _ hp.1 hp.2 h

theorem simStep_inv (t : Tables) (sh tstep : ℕ)
    (s s' : LogisticsSimulator.SimState)
    (h : LogisticsSimulator.simStep t sh tstep s = .ok s')
    (hinv : SimInv t s) : SimInv t s' := by
  unfold LogisticsSimulator.simStep at h
  by_cases hspd : 24 / sh = 0
  · rw [if_pos hspd] at h
    cases h
  · rw [if_neg hspd] at h
    obtain ⟨s2, hpa, hrest⟩ := except_bind_ok _ _ _ h
    cases hrest
    have hinv1 : SimInv t (if tstep % (24 / sh) = 0 then
        LogisticsSimulator.resetPlantDailyReceipts
          (LogisticsSimulator.agePortInventories
            (LogisticsSimulator.resetDailyLimits s ((tstep * sh) / 24 : ℕ)))
      else s) := by
      split
      · refine SimInv_of_projPH t _ _ rfl rfl
          (SimInv_of_projPH t _ _ (agePortInventories_proj _).1
            (agePortInventories_proj _).2
            (SimInv_of_projPH t _ _ (resetDailyLimits_proj _ _).1
              (resetDailyLimits_proj _ _).2 hinv))
      · exact hinv
    have hinv2 := processVesselArrivals_inv t (tstep : ℤ) _ s2 hpa hinv1
    have hinv3 := processBerthOperations_inv t sh (tstep : ℤ) s2 hinv2
    have hinv4 := processRakeOperations_inv t sh (tstep : ℤ) _ hinv3
    split
    · exact SimInv_of_projPH t _ _ rfl rfl hinv4
    · exact hinv4

theorem runSteps_inv (t : Tables) (sh : ℕ) :
    ∀ (fuel tstep : ℕ) (s s' : LogisticsSimulator.SimState),
      LogisticsSimulator.runSteps t sh fuel tstep s = .ok s' →
      SimInv t s → SimInv t s' := by
  intro fuel
  induction fuel with
  | zero => intro tstep s s' h hinv; cases h; exact hinv
  | succ n ih =>
    intro tstep s s' h hinv
    rw [LogisticsSimulator.runSteps] at h
    obtain ⟨s1, h1, h2⟩ := except_bind_ok _ _ _ h
    exact ih _ _ _ h2 (simStep_inv t sh tstep s s1 h1 hinv)

/-- Strengthening of `mem_aset`: a member of `aset l k v` is `(k, v)` itself
or an untouched member of `l`. -/
theorem mem_aset_strong {κ β : Type} [DecidableEq κ] (l : List (κ × β)) (k : κ)
    (v : β) : ∀ p ∈ aset l k v, p = (k, v) ∨ p ∈ l := by
  unfold aset
  split
  · intro p hp
    obtain ⟨q, hq, heq⟩ := List.mem_map.1 hp
    by_cases hq1 : q.1 = k
    · rw [if_pos hq1] at heq
      left
      rw [← heq]
    · rw [if_neg hq1] at heq
      right
      rw [← heq]
      exact hq
  · intro p hp
    cases List.mem_append.1 hp with
    | inl hm => right; exact hm
    | inr hm => left; exact List.mem_singleton.1 hm

/-- `aset` keeps the key list duplicate-free. -/
theorem aset_keys_nodup {κ β : Type} [DecidableEq κ] (l : List (κ × β)) (k : κ)
    (v : β) (h : (l.map (fun p => p.1)).Nodup) :
    ((aset l k v).map (fun p => p.1)).Nodup := by
  unfold aset
  split
  · have hkeys : (l.map (fun p => if p.1 = k then (k, v) else p)).map (fun p => p.1)
        = l.map (fun p => p.1) := by
      rw [List.map_map]
      apply List.map_congr_left
      intro p _
      by_cases hp : p.1 = k
      · simp only [Function.comp_apply, if_pos hp]
        exact hp.symm
      · simp only [Function.comp_apply, if_neg hp]
    rw [hkeys]
    exact h
  · rename_i hany
    rw [List.map_append]
    rw [List.nodup_append]
    refine ⟨h, by simp, ?_⟩
    intro x hx hx2
    simp only [List.map_cons, List.map_nil, List.mem_singleton] at hx2
    obtain ⟨p, hp, hpk⟩ := List.mem_map.1 hx
    exact hany (List.any_eq_true.2 ⟨p, hp, decide_eq_true (by rw [hpk, hx2])⟩)

/-- A fold of `aset` insertions keeps keys duplicate-free. -/
theorem foldl_aset_keys_nodup {α κ β : Type} [DecidableEq κ]
    (key : α → κ) (val : α → β) :
    ∀ (l : List α) (m : List (κ × β)), (m.map (fun p => p.1)).Nodup →
      ((l.foldl (fun m a => aset m (key a) (val a)) m).map (fun p => p.1)).Nodup := by
  intro l
  induction l with
  | nil => intro m h; exact h
  | cons a rest ih => intro m h; exact ih _ (aset_keys_nodup _ _ _ h)

/-- Values inserted by a fold of `aset` all satisfy a pointwise property. -/
theorem foldl_aset_val {α κ β : Type} [DecidableEq κ]
    (key : α → κ) (val : α → β) (P : β → Prop) (hv : ∀ a, P (val a)) :
    ∀ (l : List α) (m : List (κ × β)), (∀ e ∈ m, P e.2) →
      ∀ e ∈ l.foldl (fun m a => aset m (key a) (val a)) m, P e.2 := by
  intro l
  induction l with
  | nil => exact fun m h => h
  | cons a rest ih =>
    intro m h
    refine ih _ ?_
    intro e he
    cases mem_aset_strong _ _ _ e he with
    | inl heq => rw [heq]; exact hv a
    | inr hm => exact h e hm

/-- The initial port map has duplicate-free keys. -/
theorem initPortStates_nodup (t : Tables) :
    ((LogisticsSimulator.initPortStates t).map (fun e => e.1)).Nodup := by
  unfold LogisticsSimulator.initPortStates
  exact foldl_aset_keys_nodup _ _ t.ports [] (by simp)

/-- Every initial port state has handled nothing. -/
theorem initPortStates_handled (t : Tables) :
    ∀ e ∈ LogisticsSimulator.initPortStates t, e.2.total_handled = 0 := by
  unfold LogisticsSimulator.initPortStates
  exact foldl_aset_val _ _
    (fun ps : LogisticsSimulator.PortState => ps.total_handled = 0) (fun _ => rfl)
    t.ports [] (by intro e he; cases he)

/-- The invariant holds of the initial simulation state. -/
theorem initSim_inv (t : Tables) (assignments : List Assignment)
    (days stepHours : ℕ) :
    SimInv t (LogisticsSimulator.initSim t assignments days stepHours) := by
  refine ⟨initPortStates_nodup t, ?_, ?_⟩
  · intro e he _
    exact initPortStates_handled t e he
  · show (0 : ℚ) = _
    symm
    apply List.sum_eq_zero
    intro x hx
    obtain ⟨e, he, hex⟩ := List.mem_map.1 hx
    rw [← hex, initPortStates_handled t e he, mul_zero]

/-- Terms vanishing off a filter can be dropped from a mapped sum. -/
theorem sum_map_filter_of_zero {α : Type} (p : α → Bool) (f : α → ℚ) :
    ∀ l : List α, (∀ x ∈ l, p x = false → f x = 0) →
      (l.map f).sum = ((l.filter p).map f).sum := by
  intro l
  induction l with
  | nil => intro _; rfl
  | cons a rest ih =>
    intro h
    rw [List.map_cons, List.sum_cons, List.filter_cons]
    cases hp : p a with
    | true =>
      rw [if_pos rfl, List.map_cons, List.sum_cons,
        ih (fun x hx => h x (List.mem_cons_of_mem a hx))]
    | false =>
      rw [if_neg (by simp), h a (List.mem_cons_self a rest) hp, zero_add,
        ih (fun x hx => h x (List.mem_cons_of_mem a hx))]

/-- **C9.**  Zero-capacity ports discharge nothing: after any number of
simulation steps from the initial state (so at every time step of any run),
every port whose daily capacity is `0` still has `total_handled = 0`, and
the accrued port-handling cost decomposes over the positive-capacity ports
alone — the zero-capacity port contributes no port-handling cost. -/
theorem zero_capacity_port_invariant (t : Tables) (assignments : List Assignment)
    (days stepHours fuel : ℕ) (s : LogisticsSimulator.SimState)
    (h : LogisticsSimulator.runSteps t stepHours fuel 0
      (LogisticsSimulator.initSim t assignments days stepHours) = .ok s) :
    (∀ e ∈ s.ports, e.2.daily_capacity = 0 → e.2.total_handled = 0) ∧
    s.cost_port_handling
      = ((s.ports.filter (fun e => e.2.daily_capacity ≠ 0)).map (fun e =>
          LogisticsSimulator.handlingRateOf t e.1 * e.2.total_handled)).sum := by
  have hinv : SimInv t s :=
    runSteps_inv t stepHours fuel 0 _ s h
      (initSim_inv t assignments days stepHours)
  obtain ⟨hnd, hz, hc⟩ := hinv
  refine ⟨hz, ?_⟩
  rw [hc]
  apply sum_map_filter_of_zero
  intro x hx hfalse
  have hcap : x.2.daily_capacity = 0 := by
    by_contra hne
    rw [decide_eq_false_iff_not] at hfalse
    exact hfalse hne
  rw [hz x hx hcap, mul_zero]

theorem zero_capacity_port_invariant_witness :
    (LogisticsSimulator.runSteps tZ 24 2 0 (LogisticsSimulator.initSim tZ [] 2 24)
      = .ok sZ) ∧
    ((∀ e ∈ sZ.ports, e.2.daily_capacity = 0 → e.2.total_handled = 0) ∧
      sZ.cost_port_handling
        = ((sZ.ports.filter (fun e => e.2.daily_capacity ≠ 0)).map (fun e =>
            LogisticsSimulator.handlingRateOf tZ e.1 * e.2.total_handled)).sum) :=
  ⟨by rfl, zero_capacity_port_invariant tZ [] 2 24 2 sZ (by rfl)⟩
